import Mathlib

/-!
Verification development for the event-sourced personal ledger.

Shallow embedding of the TypeScript core:
* `src/domain/ledger/money.ts`, `events.ts`, `account.ts` (aggregate),
* `src/infra/db/eventStoreRepo.ts` (event log with optimistic concurrency),
* `src/infra/db/projector.ts` (synchronous read-model projection),
* `src/infra/db/commandDedupRepo.ts` (idempotency),
* `docs/decisions/ADR-003` rebuild protocol (`rebuildProjections`).

JavaScript `number` amounts are modelled as `ℚ` (they need not be
integers), `Date` values as `Nat` timestamps, thrown exceptions as
`Except`, and the Postgres tables as explicit in-memory state threaded
through the operations.  A transaction that rolls back is modelled by
returning `Except.error` without a successor state.
-/

namespace Ledger

/-- Error taxonomy from `src/domain/ledger/errors.ts` plus the plain
`Error` thrown by `Account.fromEvents` (modelled as `stateError`). -/
inductive LedgerError where
  | invalidAmount (msg : String)
  | insufficientBalance (msg : String)
  | invalidCurrency (msg : String)
  | currencyMismatch (msg : String)
  | stateError (msg : String)
deriving DecidableEq, Repr

/-- Money value object from `money.ts`: integer-cents amount plus
currency code.  The `cents` field is a JS `number`, modelled as `ℚ`. -/
structure Money where
  cents : ℚ
  currency : String
deriving DecidableEq, Repr

/-- The private `Money` constructor: it validates only the currency
(`!currency || currency.length !== 3` is equivalent to
`currency.length ≠ 3` since the empty string has length 0). -/
def Money.make (cents : ℚ) (currency : String) : Except LedgerError Money :=
  if currency.length ≠ 3 then
    .error (.invalidCurrency "Currency must be a 3-letter ISO code")
  else
    .ok ⟨cents, currency⟩

/-- `Money.fromCents`: rejects negative input amounts, then calls the
constructor. -/
def Money.fromCents (cents : ℚ) (currency : String) : Except LedgerError Money :=
  if cents < 0 then
    .error (.invalidAmount "Amount cannot be negative")
  else
    Money.make cents currency

/-- `Money.fromBalanceCents`: allows negative values (balances). -/
def Money.fromBalanceCents (cents : ℚ) (currency : String) : Except LedgerError Money :=
  Money.make cents currency

/-- `Money.zero`. -/
def Money.zero (currency : String) : Except LedgerError Money :=
  Money.make 0 currency

/-- `Money.add`: requires equal currencies, then constructs the sum. -/
def Money.add (a b : Money) : Except LedgerError Money :=
  if a.currency ≠ b.currency then
    .error (.invalidCurrency s!"Cannot add {a.currency} and {b.currency}")
  else
    Money.make (a.cents + b.cents) a.currency

/-- `Money.subtract`: requires equal currencies; the result may be
negative (it goes through `fromBalanceCents`). -/
def Money.subtract (a b : Money) : Except LedgerError Money :=
  if a.currency ≠ b.currency then
    .error (.invalidCurrency s!"Cannot subtract {a.currency} and {b.currency}")
  else
    Money.fromBalanceCents (a.cents - b.cents) a.currency

/-- Domain events from `events.ts`.  `occurredAt` dates are `Nat`
timestamps; `eventVersion` is the constant 1 on every variant and is
exposed by `AccountEvent.eventVersion`. -/
inductive AccountEvent where
  | accountCreated (name currency : String) (allowNegative : Bool)
  | incomeRecorded (amountCents : ℚ) (occurredAt : Nat) (description : Option String)
  | expenseRecorded (amountCents : ℚ) (occurredAt : Nat) (description : Option String)
  | transferSent (transferId toAccountId : String) (amountCents : ℚ)
      (occurredAt : Nat) (description : Option String)
  | transferReceived (transferId fromAccountId : String) (amountCents : ℚ)
      (occurredAt : Nat) (description : Option String)
  | accountArchived
deriving DecidableEq, Repr

/-- The `eventVersion: 1` literal carried by every event interface. -/
def AccountEvent.eventVersion (_ : AccountEvent) : Nat := 1

/-- The `type` discriminator string of an event. -/
def AccountEvent.eventType : AccountEvent → String
  | .accountCreated _ _ _ => "AccountCreated"
  | .incomeRecorded _ _ _ => "IncomeRecorded"
  | .expenseRecorded _ _ _ => "ExpenseRecorded"
  | .transferSent _ _ _ _ _ => "TransferSent"
  | .transferReceived _ _ _ _ _ => "TransferReceived"
  | .accountArchived => "AccountArchived"

/-- The `occurredAt` field of the four financial event kinds (the
repeated `event.type === 'IncomeRecorded' || ...` switch in
`eventStoreRepo.ts`); creation and archival events carry none. -/
def AccountEvent.occurredAt? : AccountEvent → Option Nat
  | .incomeRecorded _ t _ => some t
  | .expenseRecorded _ t _ => some t
  | .transferSent _ _ _ t _ => some t
  | .transferReceived _ _ _ t _ => some t
  | _ => none

/-- Account aggregate state (`AccountState` in `account.ts`). -/
structure AccountState where
  accountId : String
  name : String
  currency : String
  allowNegative : Bool
  balance : Money
  version : Nat
  isArchived : Bool
deriving DecidableEq, Repr

namespace Account

/-- The `switch` body of `Account.applyEvent` (without the version
bump).  Each branch mirrors the corresponding `applyXxx` method; any
exception thrown inside a branch aborts before the state assignment,
so failures leave the state untouched. -/
def applyEventCore (s : AccountState) : AccountEvent → Except LedgerError AccountState
  | .accountCreated name currency allowNegative => do
      let z ← Money.zero currency
      pure { s with name, currency, allowNegative, balance := z }
  | .incomeRecorded amountCents _ _ => do
      let incomeAmount ← Money.fromCents amountCents s.currency
      let b ← s.balance.add incomeAmount
      pure { s with balance := b }
  | .expenseRecorded amountCents _ _ => do
      let expenseAmount ← Money.fromCents amountCents s.currency
      let b ← s.balance.subtract expenseAmount
      pure { s with balance := b }
  | .transferSent _ _ amountCents _ _ => do
      let transferAmount ← Money.fromCents amountCents s.currency
      let b ← s.balance.subtract transferAmount
      pure { s with balance := b }
  | .transferReceived _ _ amountCents _ _ => do
      let transferAmount ← Money.fromCents amountCents s.currency
      let b ← s.balance.add transferAmount
      pure { s with balance := b }
  | .accountArchived =>
      pure { s with isArchived := true }

/-- `Account.applyEvent`: dispatch on the event kind, then increment
`version` (the bump runs only if the branch did not throw). -/
def applyEvent (s : AccountState) (e : AccountEvent) : Except LedgerError AccountState := do
  let s' ← applyEventCore s e
  pure { s' with version := s'.version + 1 }

/-- Result of `events.find((e) => e.type === 'AccountCreated')`:
the fields of the first `AccountCreated` event in the list, if any. -/
def findCreated : List AccountEvent → Option (String × String × Bool)
  | [] => none
  | .accountCreated name currency allowNegative :: _ => some (name, currency, allowNegative)
  | _ :: rest => findCreated rest

/-- `Account.fromEvents`: rejects an empty list, looks for an
`AccountCreated` event anywhere in the list (`events.find`), builds the
initial state from it, then applies every event in order. -/
def fromEvents (accountId : String) (events : List AccountEvent) :
    Except LedgerError AccountState := do
  if events.isEmpty then
    throw (.stateError "Cannot reconstruct account from empty event stream")
  match findCreated events with
  | none => throw (.stateError "AccountCreated event must be first in event stream")
  | some (name, currency, allowNegative) => do
      let z ← Money.zero currency
      let initialState : AccountState :=
        { accountId, name, currency, allowNegative, balance := z,
          version := 0, isArchived := false }
      events.foldlM applyEvent initialState

/-- `Account.create`. -/
def create (accountId name currency : String) (allowNegative : Bool) :
    Except LedgerError AccountState := do
  let z ← Money.zero currency
  pure { accountId, name, currency, allowNegative, balance := z,
         version := 0, isArchived := false }

/-- `Account.recordIncome`.  The pair returned is (thrown error or
produced event, state of the mutable object after the call); a throw
happens before any state mutation, so the state component is then the
input state unchanged. -/
def recordIncome (s : AccountState) (amountCents : ℚ) (occurredAt : Nat)
    (description : Option String) : Except LedgerError AccountEvent × AccountState :=
  if amountCents ≤ 0 then
    (.error (.invalidAmount "Income amount must be greater than zero"), s)
  else
    let event : AccountEvent := .incomeRecorded amountCents occurredAt description
    match applyEvent s event with
    | .ok s' => (.ok event, s')
    | .error e => (.error e, s)

/-- `Account.recordExpense`: positivity check, then the balance guard
computed on raw cents (before any `Money` construction), then the
event is applied. -/
def recordExpense (s : AccountState) (amountCents : ℚ) (occurredAt : Nat)
    (description : Option String) : Except LedgerError AccountEvent × AccountState :=
  if amountCents ≤ 0 then
    (.error (.invalidAmount "Expense amount must be greater than zero"), s)
  else
    let newBalanceCents := s.balance.cents - amountCents
    if ¬s.allowNegative ∧ newBalanceCents < 0 then
      (.error (.insufficientBalance
        s!"Cannot record expense: balance would be {newBalanceCents} cents"), s)
    else
      let event : AccountEvent := .expenseRecorded amountCents occurredAt description
      match applyEvent s event with
      | .ok s' => (.ok event, s')
      | .error e => (.error e, s)

/-- `Account.recordTransferSent`: same guards as `recordExpense`. -/
def recordTransferSent (s : AccountState) (transferId toAccountId : String)
    (amountCents : ℚ) (occurredAt : Nat) (description : Option String) :
    Except LedgerError AccountEvent × AccountState :=
  if amountCents ≤ 0 then
    (.error (.invalidAmount "Transfer amount must be greater than zero"), s)
  else
    let newBalanceCents := s.balance.cents - amountCents
    if ¬s.allowNegative ∧ newBalanceCents < 0 then
      (.error (.insufficientBalance
        s!"Cannot send transfer: balance would be {newBalanceCents} cents"), s)
    else
      let event : AccountEvent :=
        .transferSent transferId toAccountId amountCents occurredAt description
      match applyEvent s event with
      | .ok s' => (.ok event, s')
      | .error e => (.error e, s)

/-- `Account.recordTransferReceived`: positivity check only (currency
matching is verified at the application layer). -/
def recordTransferReceived (s : AccountState) (transferId fromAccountId : String)
    (amountCents : ℚ) (occurredAt : Nat) (description : Option String) :
    Except LedgerError AccountEvent × AccountState :=
  if amountCents ≤ 0 then
    (.error (.invalidAmount "Transfer amount must be greater than zero"), s)
  else
    let event : AccountEvent :=
      .transferReceived transferId fromAccountId amountCents occurredAt description
    match applyEvent s event with
    | .ok s' => (.ok event, s')
    | .error e => (.error e, s)

end Account

/-- Event metadata (`EventMetadata` in `eventStoreRepo.ts`). -/
structure EventMetadata where
  userId : String
  correlationId : String
  causationId : Option String
  requestId : Option String
deriving DecidableEq, Repr

/-- A stored event: one row of the `events` table, which is also the
`StoredEvent` record returned by the repository (the two carry the
same fields; the payload column is the serialized event itself). -/
structure StoredEvent where
  eventSeq : Nat
  eventId : String
  aggregateType : String
  aggregateId : String
  version : Int
  eventType : String
  eventVersion : Nat
  payload : AccountEvent
  metadata : EventMetadata
  occurredAt : Nat
deriving DecidableEq, Repr

/-- One row of `read_accounts` (`projector.ts` / migration 0004). -/
structure ReadAccount where
  accountId : String
  userId : String
  name : String
  currency : String
  allowNegative : Bool
  balanceCents : ℚ
  lastVersion : Nat
  updatedAt : Nat
deriving DecidableEq, Repr

/-- One row of `read_movements` (migration 0005). -/
structure ReadMovement where
  accountId : String
  userId : String
  kind : String
  amountCents : ℚ
  description : Option String
  occurredAt : Nat
  transferId : Option String
  eventId : String
  eventSeq : Nat
deriving DecidableEq, Repr

/-- The two projection tables. -/
structure ReadModel where
  accounts : List ReadAccount
  movements : List ReadMovement
deriving DecidableEq, Repr

/-- Empty projection tables (the state right after `TRUNCATE`). -/
def emptyReadModel : ReadModel := ⟨[], []⟩

/-- `ProjectionContext` from `projector.ts`. -/
structure ProjectionContext where
  eventSeq : Nat
  eventId : String
  aggregateId : String
  userId : String
  occurredAt : Nat
deriving DecidableEq, Repr

/-- JavaScript `event.description || null`: an empty string is falsy
and is stored as NULL. -/
def descOrNull : Option String → Option String
  | some d => if d = "" then none else some d
  | none => none

namespace Projector

/-- The `INSERT ... ON CONFLICT (account_id) DO UPDATE` of
`projectAccountCreated`: on conflict the balance column keeps its old
value and `last_version` takes the greater of old and new. -/
def upsertAccount (accounts : List ReadAccount) (row : ReadAccount) : List ReadAccount :=
  if accounts.any (fun a => a.accountId == row.accountId) then
    accounts.map (fun a =>
      if a.accountId == row.accountId then
        { a with
          name := row.name, currency := row.currency,
          allowNegative := row.allowNegative,
          lastVersion := max a.lastVersion row.lastVersion,
          updatedAt := row.updatedAt }
      else a)
  else
    accounts ++ [row]

/-- The `UPDATE read_accounts SET balance_cents = balance_cents + $1,
last_version = $2, updated_at = $3 WHERE account_id = $4` statement
(the debiting projections pass a negated delta). -/
def adjustBalance (accounts : List ReadAccount) (accountId : String) (delta : ℚ)
    (eventSeq : Nat) (occurredAt : Nat) : List ReadAccount :=
  accounts.map (fun a =>
    if a.accountId == accountId then
      { a with
        balanceCents := a.balanceCents + delta,
        lastVersion := eventSeq, updatedAt := occurredAt }
    else a)

/-- The `UPDATE read_accounts SET last_version = $1, updated_at = $2`
statement of `projectAccountArchived`. -/
def touchAccount (accounts : List ReadAccount) (accountId : String)
    (eventSeq : Nat) (occurredAt : Nat) : List ReadAccount :=
  accounts.map (fun a =>
    if a.accountId == accountId then
      { a with lastVersion := eventSeq, updatedAt := occurredAt }
    else a)

/-- `Projector.project`: dispatch on the event kind and mutate the two
projection tables (`projector.ts`).  Every financial branch pairs one
balance update with one movement insert; the movement's `occurred_at`
comes from the event itself, while the account row's `updated_at`
comes from the projection context. -/
def project (rm : ReadModel) (e : AccountEvent) (ctx : ProjectionContext) : ReadModel :=
  match e with
  | .accountCreated name currency allowNegative =>
      { rm with
        accounts := upsertAccount rm.accounts
          { accountId := ctx.aggregateId
            userId := ctx.userId
            name, currency, allowNegative
            balanceCents := 0
            lastVersion := ctx.eventSeq
            updatedAt := ctx.occurredAt } }
  | .incomeRecorded amountCents occurredAt description =>
      { accounts :=
          adjustBalance rm.accounts ctx.aggregateId amountCents ctx.eventSeq ctx.occurredAt
        movements := rm.movements ++
          [{ accountId := ctx.aggregateId
             userId := ctx.userId
             kind := "income"
             amountCents
             description := descOrNull description
             occurredAt
             transferId := none
             eventId := ctx.eventId
             eventSeq := ctx.eventSeq }] }
  | .expenseRecorded amountCents occurredAt description =>
      { accounts :=
          adjustBalance rm.accounts ctx.aggregateId (-amountCents) ctx.eventSeq ctx.occurredAt
        movements := rm.movements ++
          [{ accountId := ctx.aggregateId
             userId := ctx.userId
             kind := "expense"
             amountCents
             description := descOrNull description
             occurredAt
             transferId := none
             eventId := ctx.eventId
             eventSeq := ctx.eventSeq }] }
  | .transferSent transferId _ amountCents occurredAt description =>
      { accounts :=
          adjustBalance rm.accounts ctx.aggregateId (-amountCents) ctx.eventSeq ctx.occurredAt
        movements := rm.movements ++
          [{ accountId := ctx.aggregateId
             userId := ctx.userId
             kind := "transfer_out"
             amountCents
             description := descOrNull description
             occurredAt
             transferId := some transferId
             eventId := ctx.eventId
             eventSeq := ctx.eventSeq }] }
  | .transferReceived transferId _ amountCents occurredAt description =>
      { accounts :=
          adjustBalance rm.accounts ctx.aggregateId amountCents ctx.eventSeq ctx.occurredAt
        movements := rm.movements ++
          [{ accountId := ctx.aggregateId
             userId := ctx.userId
             kind := "transfer_in"
             amountCents
             description := descOrNull description
             occurredAt
             transferId := some transferId
             eventId := ctx.eventId
             eventSeq := ctx.eventSeq }] }
  | .accountArchived =>
      { rm with
        accounts := touchAccount rm.accounts ctx.aggregateId ctx.eventSeq ctx.occurredAt }

end Projector

/-- `ConcurrencyError` from `eventStoreRepo.ts`. -/
structure ConcurrencyError where
  expectedVersion : Int
  actualVersion : Int
deriving DecidableEq, Repr

/-- The shared transactional store: the append-only `events` table
(with its `event_seq` sequence counter) and the projection tables kept
in the same database.  The repository is modelled with its projector
present, as the use-cases construct it. -/
structure Db where
  rows : List StoredEvent
  nextSeq : Nat
  readModel : ReadModel
deriving DecidableEq, Repr

/-- The empty database: no events, sequence at 1, empty projections. -/
def initialDb : Db := ⟨[], 1, emptyReadModel⟩

/-- `randomUUID()` modelled as a deterministic fresh-id supply indexed
by the event-sequence counter at the time of the call (one UUID is
drawn per inserted event). -/
def uuidOf (n : Nat) : String := "uuid-" ++ toString n

namespace EventStoreRepo

/-- `COALESCE(MAX(version), -1)` over the rows of one stream
(`getStreamVersion` / `getStreamVersionWithClient`). -/
def streamVersion (db : Db) (aggregateType aggregateId : String) : Int :=
  ((db.rows.filter (fun r =>
      r.aggregateType == aggregateType && r.aggregateId == aggregateId)).foldl
    (fun m r => max m r.version) (-1))

/-- `loadStream`: the rows of one stream in ascending version order.
Rows are stored in insertion order, which for a single stream is
ascending version order, so the `ORDER BY version` is the identity
here; the filter is the `WHERE` clause. -/
def loadStream (db : Db) (aggregateType aggregateId : String) : List StoredEvent :=
  db.rows.filter (fun r =>
    r.aggregateType == aggregateType && r.aggregateId == aggregateId)

/-- The row built by `insertEvent` for one event.  `nowIns` models the
`new Date()` taken inside `insertEvent` for non-financial events. -/
def rowOf (aggregateType aggregateId : String) (m : EventMetadata) (nowIns : Nat)
    (e : AccountEvent) (version : Int) (seq : Nat) : StoredEvent :=
  { eventSeq := seq, eventId := uuidOf seq, aggregateType, aggregateId, version,
    eventType := e.eventType, eventVersion := e.eventVersion, payload := e,
    metadata := m, occurredAt := e.occurredAt?.getD nowIns }

/-- The insert loop of `appendWithClient`: insert each event at the
next version and the next global sequence number, build the returned
`StoredEvent`, and hand the event to the projector inside the same
transaction.  `nowCtx` models the second `new Date()` taken in
`appendWithClient` for the stored event and the projection context
(a separate clock read from the one inside `insertEvent`). -/
def appendLoop (db : Db) (aggregateType aggregateId : String)
    (events : List AccountEvent) (nextVersion : Int) (m : EventMetadata)
    (nowIns nowCtx : Nat) : Db × List StoredEvent :=
  match events with
  | [] => (db, [])
  | e :: rest =>
      let seq := db.nextSeq
      let eventId := uuidOf seq
      let row := rowOf aggregateType aggregateId m nowIns e nextVersion seq
      let db1 : Db := { db with rows := db.rows ++ [row], nextSeq := seq + 1 }
      let occurredAt := e.occurredAt?.getD nowCtx
      let stored : StoredEvent :=
        { eventSeq := seq, eventId, aggregateType, aggregateId,
          version := nextVersion, eventType := e.eventType,
          eventVersion := e.eventVersion, payload := e, metadata := m, occurredAt }
      let ctx : ProjectionContext :=
        { eventSeq := seq, eventId, aggregateId, userId := m.userId, occurredAt }
      let db2 : Db := { db1 with readModel := Projector.project db1.readModel e ctx }
      let (db3, tail) :=
        appendLoop db2 aggregateType aggregateId rest (nextVersion + 1) m nowIns nowCtx
      (db3, stored :: tail)

/-- `appendWithClient`: empty input short-circuits before the version
check; otherwise compare the stream's current version with
`expectedVersion` and either fail with `ConcurrencyError` or insert.
The unique-constraint fallback (Postgres error 23505) is unreachable
in this sequential model: after a successful version check the
inserted versions exceed the stream's maximum.  An `Except.error`
models a thrown error: the surrounding transaction rolls back, so no
successor state is produced. -/
def appendWithClient (db : Db) (aggregateType aggregateId : String)
    (events : List AccountEvent) (expectedVersion : Int) (m : EventMetadata)
    (nowIns nowCtx : Nat) : Except ConcurrencyError (Db × List StoredEvent) :=
  if events.isEmpty then
    .ok (db, [])
  else
    let currentVersion := streamVersion db aggregateType aggregateId
    if currentVersion ≠ expectedVersion then
      .error ⟨expectedVersion, currentVersion⟩
    else
      .ok (appendLoop db aggregateType aggregateId events (expectedVersion + 1)
        m nowIns nowCtx)

/-- `append`: empty input returns `[]` before opening a transaction;
otherwise `BEGIN` / `appendWithClient` / `COMMIT`, with `ROLLBACK` on
error (modelled by the `Except.error` carrying no successor state). -/
def append (db : Db) (aggregateType aggregateId : String)
    (events : List AccountEvent) (expectedVersion : Int) (m : EventMetadata)
    (nowIns nowCtx : Nat) : Except ConcurrencyError (Db × List StoredEvent) :=
  if events.isEmpty then
    .ok (db, [])
  else
    appendWithClient db aggregateType aggregateId events expectedVersion m nowIns nowCtx

/-- One per-stream request of `appendMultiple`. -/
structure AppendRequest where
  aggregateType : String
  aggregateId : String
  events : List AccountEvent
  expectedVersion : Int
  metadata : EventMetadata
deriving DecidableEq, Repr

/-- The request loop of `appendMultiple`: thread the shared
transaction through `appendWithClient` for each request; the first
failure aborts the whole transaction. -/
def appendMultipleLoop (db : Db) (nowIns nowCtx : Nat) :
    List AppendRequest → Except ConcurrencyError (Db × List (List StoredEvent))
  | [] => .ok (db, [])
  | r :: rest => do
      let (db1, stored) ← appendWithClient db r.aggregateType r.aggregateId
        r.events r.expectedVersion r.metadata nowIns nowCtx
      let (db2, results) ← appendMultipleLoop db1 nowIns nowCtx rest
      pure (db2, stored :: results)

/-- `appendMultiple`: empty request list short-circuits; otherwise all
requests run inside one transaction, all-or-nothing. -/
def appendMultiple (db : Db) (reqs : List AppendRequest) (nowIns nowCtx : Nat) :
    Except ConcurrencyError (Db × List (List StoredEvent)) :=
  if reqs.isEmpty then
    .ok (db, [])
  else
    appendMultipleLoop db nowIns nowCtx reqs

/-- The database visible to readers after an `append` call: the new
state on commit, the unchanged original on rollback. -/
def execAppend (db : Db) (aggregateType aggregateId : String)
    (events : List AccountEvent) (expectedVersion : Int) (m : EventMetadata)
    (nowIns nowCtx : Nat) : Db :=
  match append db aggregateType aggregateId events expectedVersion m nowIns nowCtx with
  | .ok (db', _) => db'
  | .error _ => db

/-- The database visible to readers after an `appendMultiple` call. -/
def execAppendMultiple (db : Db) (reqs : List AppendRequest) (nowIns nowCtx : Nat) : Db :=
  match appendMultiple db reqs nowIns nowCtx with
  | .ok (db', _) => db'
  | .error _ => db

/-- Whether a repository call committed. -/
def committed {α : Type} : Except ConcurrencyError α → Bool
  | .ok _ => true
  | .error _ => false

end EventStoreRepo

/-- One row of the `command_dedup` table: unique key
`(user_id, idempotency_key)` mapped to a correlation id. -/
structure DedupRow where
  userId : String
  idempotencyKey : String
  correlationId : String
deriving DecidableEq, Repr

/-- Result record of `CommandDedupRepo.beginCommand`. -/
structure CommandDedupResult where
  isDuplicate : Bool
  correlationId : String
deriving DecidableEq, Repr

namespace CommandDedupRepo

/-- `beginCommand` (`commandDedupRepo.ts`): one atomic
`INSERT ... ON CONFLICT (user_id, idempotency_key) DO UPDATE SET
correlation_id = command_dedup.correlation_id RETURNING correlation_id`.
On conflict the stored row is kept and returned; otherwise the fresh
row is inserted and returned.  `freshId` models the `randomUUID()`
drawn at the top of the call.  `isDuplicate` is computed by comparing
the returned correlation id with the fresh one, exactly as the source
does. -/
def beginCommand (table : List DedupRow) (userId idempotencyKey freshId : String) :
    List DedupRow × CommandDedupResult :=
  let hit := table.find? (fun r => r.userId == userId && r.idempotencyKey == idempotencyKey)
  let (table', row) :=
    match hit with
    | some r => (table, r)
    | none =>
        let r : DedupRow := ⟨userId, idempotencyKey, freshId⟩
        (table ++ [r], r)
  (table', ⟨row.correlationId ≠ freshId, row.correlationId⟩)

/-- `getCorrelationId`: read-only lookup. -/
def getCorrelationId (table : List DedupRow) (userId idempotencyKey : String) :
    Option String :=
  (table.find? (fun r => r.userId == userId && r.idempotencyKey == idempotencyKey)).map
    (fun r => r.correlationId)

end CommandDedupRepo

/-- The projection context rebuilt from a stored row by
`rebuildProjections` (ADR-003): for financial events
`event.occurredAt || row.occurred_at` — a `Date` is always truthy, so
this is the event's own timestamp — and `row.occurred_at` otherwise. -/
def ctxOfRow (row : StoredEvent) : ProjectionContext :=
  { eventSeq := row.eventSeq
    eventId := row.eventId
    aggregateId := row.aggregateId
    userId := row.metadata.userId
    occurredAt := row.payload.occurredAt?.getD row.occurredAt }

/-- Insertion step of an insertion sort by `event_seq` (the `ORDER BY
event_seq ASC` of the rebuild query). -/
def insertBySeq (r : StoredEvent) : List StoredEvent → List StoredEvent
  | [] => [r]
  | x :: xs => if r.eventSeq ≤ x.eventSeq then r :: x :: xs else x :: insertBySeq r xs

/-- Sort rows by ascending `event_seq`. -/
def sortBySeq : List StoredEvent → List StoredEvent
  | [] => []
  | x :: xs => insertBySeq x (sortBySeq xs)

/-- `rebuildProjections` (ADR-003): truncate the projection tables,
load every event in ascending `event_seq` order, and project each one
in turn.  The batching of the source loop visits exactly the same
rows in the same order and is dropped. -/
def rebuildProjections (rows : List StoredEvent) : ReadModel :=
  (sortBySeq rows).foldl (fun rm row => Projector.project rm row.payload (ctxOfRow row))
    emptyReadModel

/-- One external write operation against the store, carrying the two
clock readings its transaction takes (`new Date()` inside
`insertEvent` and inside `appendWithClient`). -/
inductive LedgerOp where
  | doAppend (aggregateType aggregateId : String) (events : List AccountEvent)
      (expectedVersion : Int) (m : EventMetadata) (nowIns nowCtx : Nat)
  | doAppendMultiple (reqs : List EventStoreRepo.AppendRequest) (nowIns nowCtx : Nat)

/-- Run one operation; a rolled-back transaction leaves the store
unchanged. -/
def runOp (db : Db) : LedgerOp → Db
  | .doAppend t i es v m nI nC => EventStoreRepo.execAppend db t i es v m nI nC
  | .doAppendMultiple reqs nI nC => EventStoreRepo.execAppendMultiple db reqs nI nC

/-- Run a sequence of operations from a starting store. -/
def runOps (db : Db) (ops : List LedgerOp) : Db :=
  ops.foldl runOp db

/-! ### Specification-level definitions used by the theorems -/

/-- Well-formedness of an aggregate state: the currency passes the
`Money` constructor's check and the balance carries the account's own
currency.  Every state built by `Account.create` or
`Account.fromEvents` satisfies this. -/
def AccountState.wf (s : AccountState) : Prop :=
  s.currency.length = 3 ∧ s.balance.currency = s.currency

instance (s : AccountState) : Decidable s.wf := by
  unfold AccountState.wf
  infer_instance

/-- Whether an event is the creation event. -/
def AccountEvent.isCreated : AccountEvent → Bool
  | .accountCreated _ _ _ => true
  | _ => false

/-- Validity of one event for folding: creation events carry a 3-letter
currency, financial events carry a non-negative amount. -/
def AccountEvent.eventWf : AccountEvent → Prop
  | .accountCreated _ currency _ => currency.length = 3
  | .incomeRecorded amountCents _ _ => 0 ≤ amountCents
  | .expenseRecorded amountCents _ _ => 0 ≤ amountCents
  | .transferSent _ _ amountCents _ _ => 0 ≤ amountCents
  | .transferReceived _ _ amountCents _ _ => 0 ≤ amountCents
  | .accountArchived => True

instance (e : AccountEvent) : Decidable e.eventWf := by
  unfold AccountEvent.eventWf
  cases e <;> infer_instance

/-- Signed amount of an event: income and transfer-in count positive,
expense and transfer-out negative, the rest zero. -/
def AccountEvent.signedAmount : AccountEvent → ℚ
  | .incomeRecorded amountCents _ _ => amountCents
  | .expenseRecorded amountCents _ _ => -amountCents
  | .transferSent _ _ amountCents _ _ => -amountCents
  | .transferReceived _ _ amountCents _ _ => amountCents
  | _ => 0

/-- Signed sum of the amounts of a list of events. -/
def signedSum (events : List AccountEvent) : ℚ :=
  (events.map AccountEvent.signedAmount).sum

/-- A read-account row with its `updated_at` bookkeeping column
cleared; two rows with equal cores agree on everything a query for
balances would return. -/
def ReadAccount.core (a : ReadAccount) : ReadAccount :=
  { a with updatedAt := 0 }

/-- A read model up to the `updated_at` column of account rows. -/
def scrub (rm : ReadModel) : ReadModel :=
  { accounts := rm.accounts.map ReadAccount.core, movements := rm.movements }

/-- The projection context carried by a stored event as the append
path builds it (`eventStoreRepo.ts` builds exactly these fields). -/
def ctxOfStored (row : StoredEvent) : ProjectionContext :=
  { eventSeq := row.eventSeq
    eventId := row.eventId
    aggregateId := row.aggregateId
    userId := row.metadata.userId
    occurredAt := row.occurredAt }

/-- A stored event's projection context with the clock reading
cleared; the append-time context and the rebuilt context agree on it. -/
def coreCtx (row : StoredEvent) : ProjectionContext :=
  { eventSeq := row.eventSeq
    eventId := row.eventId
    aggregateId := row.aggregateId
    userId := row.metadata.userId
    occurredAt := 0 }

/-- Fold the projector over a row list using the append-time
contexts. -/
def projectRows (rm : ReadModel) (rows : List StoredEvent) : ReadModel :=
  rows.foldl (fun rm row => Projector.project rm row.payload (ctxOfStored row)) rm

/-- Fold the projector over a row list using clock-cleared contexts,
starting from truncated tables. -/
def coreReplay (rows : List StoredEvent) : ReadModel :=
  rows.foldl (fun rm row => Projector.project rm row.payload (coreCtx row)) emptyReadModel

namespace EventStoreRepo

/-- The rows inserted by the append loop for a list of events starting
at a given version and sequence number (`now` is the clock used for
events that carry no timestamp). -/
def mkRows (aggregateType aggregateId : String) (m : EventMetadata) (now : Nat) :
    List AccountEvent → Int → Nat → List StoredEvent
  | [], _, _ => []
  | e :: rest, v, s =>
      rowOf aggregateType aggregateId m now e v s ::
        mkRows aggregateType aggregateId m now rest (v + 1) (s + 1)

/-- The database visible after one `appendWithClient` step inside a
larger transaction (used to phrase the all-or-nothing property of
`appendMultiple`). -/
def execAppendWithClient (db : Db) (r : AppendRequest) (nowIns nowCtx : Nat) : Db :=
  match appendWithClient db r.aggregateType r.aggregateId r.events r.expectedVersion
      r.metadata nowIns nowCtx with
  | .ok (db', _) => db'
  | .error _ => db

/-- Every request of the list whose events list is non-empty names the
current version its stream has at the point the request is processed
inside the transaction. -/
def allMatch (nowIns nowCtx : Nat) : Db → List AppendRequest → Prop
  | _, [] => True
  | db, r :: rest =>
      (r.events ≠ [] → r.expectedVersion = streamVersion db r.aggregateType r.aggregateId) ∧
      allMatch nowIns nowCtx (execAppendWithClient db r nowIns nowCtx) rest

instance (nowIns nowCtx : Nat) (db : Db) (reqs : List AppendRequest) :
    Decidable (allMatch nowIns nowCtx db reqs) := by
  induction reqs generalizing db with
  | nil => exact .isTrue trivial
  | cons r rest ih =>
      unfold allMatch
      have := ih (execAppendWithClient db r nowIns nowCtx)
      infer_instance

end EventStoreRepo

/-- Whether a dedup row belongs to the `(userId, idempotencyKey)` key. -/
def dedupKeyMatch (userId idempotencyKey : String) (r : DedupRow) : Bool :=
  r.userId == userId && r.idempotencyKey == idempotencyKey

/-- Invariant of every store reachable through the repository's write
operations: global sequence numbers are below the sequence counter and
strictly increase along the insertion order of the event table, and
the projection tables agree, up to the `updated_at` clock column, with
a clock-free replay of the event table in insertion order. -/
def DbInv (db : Db) : Prop :=
  (∀ r ∈ db.rows, r.eventSeq < db.nextSeq) ∧
  db.rows.Pairwise (fun a b => a.eventSeq < b.eventSeq) ∧
  scrub db.readModel =
    db.rows.foldl (fun rm row => Projector.project rm row.payload (coreCtx row))
      emptyReadModel

/-- A concrete well-formed aggregate state used to instantiate the
universally quantified theorems. -/
def sampleAccount : AccountState :=
  { accountId := "acc-1", name := "Main", currency := "USD", allowNegative := false,
    balance := ⟨400, "USD"⟩, version := 4, isArchived := false }

/-- Concrete event metadata used to instantiate theorems. -/
def sampleMeta : EventMetadata :=
  { userId := "user-1", correlationId := "corr-1", causationId := none, requestId := none }

/-! ### Aggregate lemmas -/

theorem Money.make_ok (cents : ℚ) (currency : String) (h : currency.length = 3) :
    Money.make cents currency = .ok ⟨cents, currency⟩ := by
  simp [Money.make, h]

theorem applyEvent_income (s : AccountState) (a : ℚ) (t : Nat) (d : Option String)
    (hwf : s.wf) (ha : 0 ≤ a) :
    Account.applyEvent s (.incomeRecorded a t d) =
      .ok { s with
            balance := ⟨s.balance.cents + a, s.balance.currency⟩,
            version := s.version + 1 } := by
  obtain ⟨h3, hbc⟩ := hwf
  simp [Account.applyEvent, Account.applyEventCore, Money.fromCents, Money.make,
    Money.add, hbc, h3, not_lt.mpr ha, Bind.bind, Except.bind, Except.map, pure,
    Except.pure]

theorem applyEvent_received (s : AccountState) (tid aid : String) (a : ℚ) (t : Nat)
    (d : Option String) (hwf : s.wf) (ha : 0 ≤ a) :
    Account.applyEvent s (.transferReceived tid aid a t d) =
      .ok { s with
            balance := ⟨s.balance.cents + a, s.balance.currency⟩,
            version := s.version + 1 } := by
  obtain ⟨h3, hbc⟩ := hwf
  simp [Account.applyEvent, Account.applyEventCore, Money.fromCents, Money.make,
    Money.add, hbc, h3, not_lt.mpr ha, Bind.bind, Except.bind, Except.map, pure,
    Except.pure]

theorem applyEvent_expense (s : AccountState) (a : ℚ) (t : Nat) (d : Option String)
    (hwf : s.wf) (ha : 0 ≤ a) :
    Account.applyEvent s (.expenseRecorded a t d) =
      .ok { s with
            balance := ⟨s.balance.cents - a, s.balance.currency⟩,
            version := s.version + 1 } := by
  obtain ⟨h3, hbc⟩ := hwf
  simp [Account.applyEvent, Account.applyEventCore, Money.fromCents, Money.make,
    Money.subtract, Money.fromBalanceCents, hbc, h3, not_lt.mpr ha, Bind.bind,
    Except.bind, Except.map, pure, Except.pure]

theorem applyEvent_sent (s : AccountState) (tid aid : String) (a : ℚ) (t : Nat)
    (d : Option String) (hwf : s.wf) (ha : 0 ≤ a) :
    Account.applyEvent s (.transferSent tid aid a t d) =
      .ok { s with
            balance := ⟨s.balance.cents - a, s.balance.currency⟩,
            version := s.version + 1 } := by
  obtain ⟨h3, hbc⟩ := hwf
  simp [Account.applyEvent, Account.applyEventCore, Money.fromCents, Money.make,
    Money.subtract, Money.fromBalanceCents, hbc, h3, not_lt.mpr ha, Bind.bind,
    Except.bind, Except.map, pure, Except.pure]

theorem applyEvent_created (s : AccountState) (n c : String) (neg : Bool)
    (h3 : c.length = 3) :
    Account.applyEvent s (.accountCreated n c neg) =
      .ok { s with
            name := n, currency := c, allowNegative := neg, balance := ⟨0, c⟩,
            version := s.version + 1 } := by
  simp [Account.applyEvent, Account.applyEventCore, Money.zero, Money.make, h3,
    Bind.bind, Except.bind, Except.map, pure, Except.pure]

theorem applyEvent_archived (s : AccountState) :
    Account.applyEvent s .accountArchived =
      .ok { s with isArchived := true, version := s.version + 1 } := by
  simp [Account.applyEvent, Account.applyEventCore, Bind.bind, Except.bind, pure,
    Except.pure]

end Ledger

namespace Ledger

theorem applyEventCore_flag (s : AccountState) (b : Bool) (e : AccountEvent) :
    Account.applyEventCore { s with isArchived := b } e =
      (Account.applyEventCore s e).map
        (fun s' => { s' with isArchived := if e = .accountArchived then true else b }) := by
  cases e with
  | accountCreated n c neg =>
      cases hz : Money.zero c <;>
        simp [Account.applyEventCore, hz, Bind.bind, Except.bind, Except.map, pure,
          Except.pure]
  | incomeRecorded a t d =>
      cases hm : Money.fromCents a s.currency with
      | error err => simp [Account.applyEventCore, hm, Bind.bind, Except.bind, Except.map]
      | ok m =>
          cases hb : s.balance.add m <;>
            simp [Account.applyEventCore, hm, hb, Bind.bind, Except.bind, Except.map,
              pure, Except.pure]
  | expenseRecorded a t d =>
      cases hm : Money.fromCents a s.currency with
      | error err => simp [Account.applyEventCore, hm, Bind.bind, Except.bind, Except.map]
      | ok m =>
          cases hb : s.balance.subtract m <;>
            simp [Account.applyEventCore, hm, hb, Bind.bind, Except.bind, Except.map,
              pure, Except.pure]
  | transferSent tid aid a t d =>
      cases hm : Money.fromCents a s.currency with
      | error err => simp [Account.applyEventCore, hm, Bind.bind, Except.bind, Except.map]
      | ok m =>
          cases hb : s.balance.subtract m <;>
            simp [Account.applyEventCore, hm, hb, Bind.bind, Except.bind, Except.map,
              pure, Except.pure]
  | transferReceived tid aid a t d =>
      cases hm : Money.fromCents a s.currency with
      | error err => simp [Account.applyEventCore, hm, Bind.bind, Except.bind, Except.map]
      | ok m =>
          cases hb : s.balance.add m <;>
            simp [Account.applyEventCore, hm, hb, Bind.bind, Except.bind, Except.map,
              pure, Except.pure]
  | accountArchived =>
      simp [Account.applyEventCore, Except.map, pure, Except.pure]

theorem applyEvent_flag (s : AccountState) (b : Bool) (e : AccountEvent) :
    Account.applyEvent { s with isArchived := b } e =
      (Account.applyEvent s e).map
        (fun s' => { s' with isArchived := if e = .accountArchived then true else b }) := by
  unfold Account.applyEvent
  rw [applyEventCore_flag s b e]
  cases h : Account.applyEventCore s e <;>
    simp [h, Bind.bind, Except.bind, Except.map, pure, Except.pure]

end Ledger

namespace Ledger

/-- C9: for every account state, each command method (recordIncome,
recordExpense, recordTransferSent, recordTransferReceived) returns the
same event-or-error and the same resulting balance and version on the
state with isArchived = true as on the identical state with
isArchived = false; folding AccountArchived sets only the archived
flag (besides the uniform version bump), so no command method reads or
is blocked by it. -/
theorem archived_flag_is_cosmetic (s : AccountState) (a : ℚ) (t : Nat)
    (d : Option String) (tid aid : String) :
    ((Account.recordIncome { s with isArchived := true } a t d).1 =
       (Account.recordIncome { s with isArchived := false } a t d).1 ∧
     (Account.recordIncome { s with isArchived := true } a t d).2.balance =
       (Account.recordIncome { s with isArchived := false } a t d).2.balance ∧
     (Account.recordIncome { s with isArchived := true } a t d).2.version =
       (Account.recordIncome { s with isArchived := false } a t d).2.version) ∧
    ((Account.recordExpense { s with isArchived := true } a t d).1 =
       (Account.recordExpense { s with isArchived := false } a t d).1 ∧
     (Account.recordExpense { s with isArchived := true } a t d).2.balance =
       (Account.recordExpense { s with isArchived := false } a t d).2.balance ∧
     (Account.recordExpense { s with isArchived := true } a t d).2.version =
       (Account.recordExpense { s with isArchived := false } a t d).2.version) ∧
    ((Account.recordTransferSent { s with isArchived := true } tid aid a t d).1 =
       (Account.recordTransferSent { s with isArchived := false } tid aid a t d).1 ∧
     (Account.recordTransferSent { s with isArchived := true } tid aid a t d).2.balance =
       (Account.recordTransferSent { s with isArchived := false } tid aid a t d).2.balance ∧
     (Account.recordTransferSent { s with isArchived := true } tid aid a t d).2.version =
       (Account.recordTransferSent { s with isArchived := false } tid aid a t d).2.version) ∧
    ((Account.recordTransferReceived { s with isArchived := true } tid aid a t d).1 =
       (Account.recordTransferReceived { s with isArchived := false } tid aid a t d).1 ∧
     (Account.recordTransferReceived { s with isArchived := true } tid aid a t d).2.balance =
       (Account.recordTransferReceived { s with isArchived := false } tid aid a t d).2.balance ∧
     (Account.recordTransferReceived { s with isArchived := true } tid aid a t d).2.version =
       (Account.recordTransferReceived { s with isArchived := false } tid aid a t d).2.version) ∧
    Account.applyEvent s .accountArchived =
      .ok { s with isArchived := true, version := s.version + 1 } := by
  refine ⟨?_, ?_, ?_, ?_, applyEvent_archived s⟩
  · by_cases ha : a ≤ 0
    · simp [Account.recordIncome, ha]
    · cases h : Account.applyEvent s (.incomeRecorded a t d) <;>
        simp [Account.recordIncome, ha, applyEvent_flag, h, Except.map]
  · by_cases ha : a ≤ 0
    · simp [Account.recordExpense, ha]
    · cases h : Account.applyEvent s (.expenseRecorded a t d) <;>
        simp [Account.recordExpense, ha, applyEvent_flag, h, Except.map] <;>
        split <;> simp
  · by_cases ha : a ≤ 0
    · simp [Account.recordTransferSent, ha]
    · cases h : Account.applyEvent s (.transferSent tid aid a t d) <;>
        simp [Account.recordTransferSent, ha, applyEvent_flag, h, Except.map] <;>
        split <;> simp
  · by_cases ha : a ≤ 0
    · simp [Account.recordTransferReceived, ha]
    · cases h : Account.applyEvent s (.transferReceived tid aid a t d) <;>
        simp [Account.recordTransferReceived, ha, applyEvent_flag, h, Except.map]

end Ledger

namespace Ledger

/-- C6 (amended): for each command method recordIncome, recordExpense,
recordTransferSent and recordTransferReceived, every amount that is
zero or negative fails with InvalidAmount and leaves the aggregate
state, including its version, unchanged.  (Non-integer positive
amounts are not rejected by the command methods; see the
counterexample.) -/
theorem record_nonpositive_fails_invalidAmount (s : AccountState) (a : ℚ) (t : Nat)
    (d : Option String) (tid aid : String) (ha : a ≤ 0) :
    Account.recordIncome s a t d =
      (.error (.invalidAmount "Income amount must be greater than zero"), s) ∧
    Account.recordExpense s a t d =
      (.error (.invalidAmount "Expense amount must be greater than zero"), s) ∧
    Account.recordTransferSent s tid aid a t d =
      (.error (.invalidAmount "Transfer amount must be greater than zero"), s) ∧
    Account.recordTransferReceived s tid aid a t d =
      (.error (.invalidAmount "Transfer amount must be greater than zero"), s) := by
  refine ⟨?_, ?_, ?_, ?_⟩ <;>
    simp [Account.recordIncome, Account.recordExpense, Account.recordTransferSent,
      Account.recordTransferReceived, ha]

/-- Witness for C6: at amount −5 every command method fails with
InvalidAmount and returns the state unchanged. -/
theorem record_nonpositive_fails_invalidAmount_witness :
    ((-5 : ℚ) ≤ 0) ∧
    (Account.recordIncome sampleAccount (-5) 0 none =
      (.error (.invalidAmount "Income amount must be greater than zero"), sampleAccount) ∧
    Account.recordExpense sampleAccount (-5) 0 none =
      (.error (.invalidAmount "Expense amount must be greater than zero"), sampleAccount) ∧
    Account.recordTransferSent sampleAccount "tr-1" "acc-2" (-5) 0 none =
      (.error (.invalidAmount "Transfer amount must be greater than zero"), sampleAccount) ∧
    Account.recordTransferReceived sampleAccount "tr-1" "acc-2" (-5) 0 none =
      (.error (.invalidAmount "Transfer amount must be greater than zero"), sampleAccount)) :=
  ⟨by norm_num,
   record_nonpositive_fails_invalidAmount sampleAccount (-5) 0 none "tr-1" "acc-2"
     (by norm_num)⟩

/-- Counterexample for C6 as stated: the positive non-integer amount
1/2 is not rejected — recordIncome succeeds, emits the event and
changes the balance, instead of failing with InvalidAmount. -/
theorem record_income_accepts_non_integer_amount :
    Account.recordIncome sampleAccount (1/2) 0 none =
      (.ok (.incomeRecorded (1/2) 0 none),
       { sampleAccount with balance := ⟨400 + 1/2, "USD"⟩, version := 5 }) := by
  have hwf : sampleAccount.wf := ⟨rfl, rfl⟩
  have h2 := applyEvent_income sampleAccount (1/2) 0 none hwf (by norm_num)
  have hg : ¬ ((1/2 : ℚ) ≤ 0) := by norm_num
  simp only [Account.recordIncome, if_neg hg, h2]
  norm_num [sampleAccount]

end Ledger

namespace Ledger

/-- C5: on a well-formed account state with allowNegative = false,
recordExpense and recordTransferSent with a positive integer amount a
succeed exactly when balanceCents − a ≥ 0, producing the debited
state, and otherwise fail with InsufficientBalance leaving the state
unchanged; with allowNegative = true they succeed for every positive
integer amount. -/
theorem debit_balance_guard (s : AccountState) (a : ℤ) (t : Nat) (d : Option String)
    (tid aid : String) (hwf : s.wf) (ha : 0 < a) :
    (s.allowNegative = false → 0 ≤ s.balance.cents - (a : ℚ) →
      Account.recordExpense s (a : ℚ) t d =
        (.ok (.expenseRecorded (a : ℚ) t d),
         { s with
           balance := ⟨s.balance.cents - (a : ℚ), s.balance.currency⟩,
           version := s.version + 1 }) ∧
      Account.recordTransferSent s tid aid (a : ℚ) t d =
        (.ok (.transferSent tid aid (a : ℚ) t d),
         { s with
           balance := ⟨s.balance.cents - (a : ℚ), s.balance.currency⟩,
           version := s.version + 1 })) ∧
    (s.allowNegative = false → s.balance.cents - (a : ℚ) < 0 →
      (∃ m, Account.recordExpense s (a : ℚ) t d =
        (.error (.insufficientBalance m), s)) ∧
      (∃ m, Account.recordTransferSent s tid aid (a : ℚ) t d =
        (.error (.insufficientBalance m), s))) ∧
    (s.allowNegative = true →
      Account.recordExpense s (a : ℚ) t d =
        (.ok (.expenseRecorded (a : ℚ) t d),
         { s with
           balance := ⟨s.balance.cents - (a : ℚ), s.balance.currency⟩,
           version := s.version + 1 }) ∧
      Account.recordTransferSent s tid aid (a : ℚ) t d =
        (.ok (.transferSent tid aid (a : ℚ) t d),
         { s with
           balance := ⟨s.balance.cents - (a : ℚ), s.balance.currency⟩,
           version := s.version + 1 })) := by
  have haQ : (0 : ℚ) < (a : ℚ) := by exact_mod_cast ha
  have haQle : ¬ ((a : ℚ) ≤ 0) := not_le.mpr haQ
  have hexp := applyEvent_expense s (a : ℚ) t d hwf haQ.le
  have hsent := applyEvent_sent s tid aid (a : ℚ) t d hwf haQ.le
  refine ⟨fun hneg hbal => ⟨?_, ?_⟩, fun hneg hbal => ⟨?_, ?_⟩, fun hpos => ⟨?_, ?_⟩⟩
  · simp [Account.recordExpense, haQle, hneg, not_lt.mpr hbal, hexp]
  · simp [Account.recordTransferSent, haQle, hneg, not_lt.mpr hbal, hsent]
  · exact ⟨toString "Cannot record expense: balance would be " ++
        toString (s.balance.cents - (a : ℚ)) ++ toString " cents",
      by simp [Account.recordExpense, haQle, hneg, hbal]⟩
  · exact ⟨toString "Cannot send transfer: balance would be " ++
        toString (s.balance.cents - (a : ℚ)) ++ toString " cents",
      by simp [Account.recordTransferSent, haQle, hneg, hbal]⟩
  · simp [Account.recordExpense, haQle, hpos, hexp]
  · simp [Account.recordTransferSent, haQle, hpos, hsent]

/-- Witness for C5: on the sample state (balance 400, allowNegative
false) an expense of 300 succeeds with the debited state, and an
expense of 500 fails with InsufficientBalance leaving the state
unchanged. -/
theorem debit_balance_guard_witness :
    (sampleAccount.wf ∧ (0 : ℤ) < 300 ∧ sampleAccount.allowNegative = false ∧
      (0 : ℚ) ≤ sampleAccount.balance.cents - ((300 : ℤ) : ℚ)) ∧
    (Account.recordExpense sampleAccount ((300 : ℤ) : ℚ) 9 none =
      (.ok (.expenseRecorded ((300 : ℤ) : ℚ) 9 none),
       { sampleAccount with
         balance := ⟨sampleAccount.balance.cents - ((300 : ℤ) : ℚ),
                     sampleAccount.balance.currency⟩,
         version := sampleAccount.version + 1 }) ∧
     Account.recordTransferSent sampleAccount "tr-1" "acc-2" ((300 : ℤ) : ℚ) 9 none =
      (.ok (.transferSent "tr-1" "acc-2" ((300 : ℤ) : ℚ) 9 none),
       { sampleAccount with
         balance := ⟨sampleAccount.balance.cents - ((300 : ℤ) : ℚ),
                     sampleAccount.balance.currency⟩,
         version := sampleAccount.version + 1 })) ∧
    ((∃ m, Account.recordExpense sampleAccount ((500 : ℤ) : ℚ) 9 none =
        (.error (.insufficientBalance m), sampleAccount)) ∧
     (∃ m, Account.recordTransferSent sampleAccount "tr-1" "acc-2" ((500 : ℤ) : ℚ) 9 none =
        (.error (.insufficientBalance m), sampleAccount))) :=
  ⟨⟨⟨rfl, rfl⟩, by norm_num, rfl, by norm_num [sampleAccount]⟩,
   (debit_balance_guard sampleAccount 300 9 none "tr-1" "acc-2" ⟨rfl, rfl⟩
      (by norm_num)).1 rfl (by norm_num [sampleAccount]),
   (debit_balance_guard sampleAccount 500 9 none "tr-1" "acc-2" ⟨rfl, rfl⟩
      (by norm_num)).2.1 rfl (by norm_num [sampleAccount])⟩

end Ledger

namespace Ledger

theorem applyEvent_step (s : AccountState) (e : AccountEvent) (hwf : s.wf)
    (hew : e.eventWf) :
    ∃ s1, Account.applyEvent s e = .ok s1 ∧ s1.version = s.version + 1 ∧
      s1.wf ∧ s1.accountId = s.accountId ∧
      (e.isCreated = false → s1.balance.cents = s.balance.cents + e.signedAmount) := by
  cases e with
  | accountCreated n c neg =>
      exact ⟨_, applyEvent_created s n c neg hew, rfl, ⟨hew, rfl⟩, rfl,
        by intro h; simp [AccountEvent.isCreated] at h⟩
  | incomeRecorded a t d =>
      exact ⟨_, applyEvent_income s a t d hwf hew, rfl, ⟨hwf.1, hwf.2⟩, rfl,
        fun _ => by simp [AccountEvent.signedAmount]⟩
  | expenseRecorded a t d =>
      exact ⟨_, applyEvent_expense s a t d hwf hew, rfl, ⟨hwf.1, hwf.2⟩, rfl,
        fun _ => by simp [AccountEvent.signedAmount, sub_eq_add_neg]⟩
  | transferSent tid aid a t d =>
      exact ⟨_, applyEvent_sent s tid aid a t d hwf hew, rfl, ⟨hwf.1, hwf.2⟩, rfl,
        fun _ => by simp [AccountEvent.signedAmount, sub_eq_add_neg]⟩
  | transferReceived tid aid a t d =>
      exact ⟨_, applyEvent_received s tid aid a t d hwf hew, rfl, ⟨hwf.1, hwf.2⟩, rfl,
        fun _ => by simp [AccountEvent.signedAmount]⟩
  | accountArchived =>
      exact ⟨_, applyEvent_archived s, rfl, hwf, rfl, by simp [AccountEvent.signedAmount]⟩

theorem foldlM_applyEvent_ok (es : List AccountEvent) :
    ∀ s : AccountState, s.wf → (∀ e ∈ es, e.eventWf) →
    ∃ s', es.foldlM Account.applyEvent s = .ok s' ∧
      s'.version = s.version + es.length ∧ s'.wf ∧ s'.accountId = s.accountId := by
  induction es with
  | nil =>
      intro s hwf _
      exact ⟨s, rfl, by simp, hwf, rfl⟩
  | cons e rest ih =>
      intro s hwf hall
      obtain ⟨s1, hs1, hver, hwf1, hacc, _⟩ :=
        applyEvent_step s e hwf (hall e (List.mem_cons_self e rest))
      obtain ⟨s', hs', hver', hwf', hacc'⟩ :=
        ih s1 hwf1 (fun e' h => hall e' (List.mem_cons_of_mem e h))
      refine ⟨s', ?_, ?_, hwf', by rw [hacc', hacc]⟩
      · simp [List.foldlM_cons, hs1, hs', Bind.bind, Except.bind]
      · rw [hver', hver]
        simp only [List.length_cons]
        omega

theorem foldlM_applyEvent_sum (es : List AccountEvent) :
    ∀ s : AccountState, s.wf → (∀ e ∈ es, e.eventWf ∧ e.isCreated = false) →
    ∃ s', es.foldlM Account.applyEvent s = .ok s' ∧
      s'.balance.cents = s.balance.cents + signedSum es ∧
      s'.version = s.version + es.length ∧ s'.wf := by
  induction es with
  | nil =>
      intro s hwf _
      exact ⟨s, rfl, by simp [signedSum], by simp, hwf⟩
  | cons e rest ih =>
      intro s hwf hall
      obtain ⟨hew, hnc⟩ := hall e (List.mem_cons_self e rest)
      obtain ⟨s1, hs1, hver, hwf1, _, hcents⟩ := applyEvent_step s e hwf hew
      obtain ⟨s', hs', hcents', hver', hwf'⟩ :=
        ih s1 hwf1 (fun e' h => hall e' (List.mem_cons_of_mem e h))
      refine ⟨s', ?_, ?_, ?_, hwf'⟩
      · simp [List.foldlM_cons, hs1, hs', Bind.bind, Except.bind]
      · rw [hcents', hcents hnc]
        simp [signedSum]
        ring
      · rw [hver', hver]
        simp only [List.length_cons]
        omega

end Ledger

namespace Ledger

/-- C4: for every event sequence beginning with the creation event
(and containing no further creation event) whose financial amounts are
valid, the state produced by Account.fromEvents has balance cents
equal to the signed sum of the event amounts — income and transfer-in
positive, expense and transfer-out negative — starting from 0. -/
theorem fromEvents_balance_is_signedSum (accountId n c : String) (neg : Bool)
    (rest : List AccountEvent) (h3 : c.length = 3)
    (hrest : ∀ e ∈ rest, e.eventWf ∧ e.isCreated = false) :
    ∃ s, Account.fromEvents accountId (.accountCreated n c neg :: rest) = .ok s ∧
      s.balance.cents = signedSum (.accountCreated n c neg :: rest) := by
  have hz : Money.zero c = .ok ⟨0, c⟩ := Money.make_ok 0 c h3
  have hstep := applyEvent_created
    { accountId := accountId, name := n, currency := c, allowNegative := neg,
      balance := ⟨0, c⟩, version := 0, isArchived := false } n c neg h3
  obtain ⟨s', hs', hcents', hver', hwf'⟩ :=
    foldlM_applyEvent_sum rest
      { accountId := accountId, name := n, currency := c, allowNegative := neg,
        balance := ⟨0, c⟩, version := 1, isArchived := false } ⟨h3, rfl⟩ hrest
  refine ⟨s', ?_, ?_⟩
  · simp [Account.fromEvents, Account.findCreated, hz, Bind.bind, Except.bind,
      List.foldlM_cons, hstep, hs', pure, Except.pure]
  · rw [hcents']
    simp [signedSum, AccountEvent.signedAmount]

/-- Witness for C4: the specification scenario create(USD) →
income(1000) → expense(300) → transferSent(300) gives balance 400. -/
theorem fromEvents_balance_is_signedSum_witness :
    (("USD".length = 3) ∧
     (∀ e ∈ [AccountEvent.incomeRecorded 1000 5 none,
         AccountEvent.expenseRecorded 300 6 none,
         AccountEvent.transferSent "tr-1" "acc-2" 300 7 none],
       e.eventWf ∧ e.isCreated = false)) ∧
    signedSum [AccountEvent.accountCreated "Main" "USD" false,
      AccountEvent.incomeRecorded 1000 5 none,
      AccountEvent.expenseRecorded 300 6 none,
      AccountEvent.transferSent "tr-1" "acc-2" 300 7 none] = 400 ∧
    (∃ s, Account.fromEvents "acc-1"
        [AccountEvent.accountCreated "Main" "USD" false,
         AccountEvent.incomeRecorded 1000 5 none,
         AccountEvent.expenseRecorded 300 6 none,
         AccountEvent.transferSent "tr-1" "acc-2" 300 7 none] = .ok s ∧
      s.balance.cents = signedSum [AccountEvent.accountCreated "Main" "USD" false,
        AccountEvent.incomeRecorded 1000 5 none,
        AccountEvent.expenseRecorded 300 6 none,
        AccountEvent.transferSent "tr-1" "acc-2" 300 7 none]) :=
  ⟨⟨by decide, by decide⟩,
   by norm_num [signedSum, AccountEvent.signedAmount],
   fromEvents_balance_is_signedSum "acc-1" "Main" "USD" false
     [AccountEvent.incomeRecorded 1000 5 none,
      AccountEvent.expenseRecorded 300 6 none,
      AccountEvent.transferSent "tr-1" "acc-2" 300 7 none] (by decide) (by decide)⟩

/-- C8 (amended): Account.fromEvents fails with a state error exactly
when the list contains no AccountCreated event anywhere (the code
searches with events.find, so the creation event need not be first);
when the list does begin with AccountCreated and every event is valid
(3-letter currencies, non-negative amounts), it succeeds and folds
every event: the resulting version equals the list length. -/
theorem fromEvents_created_searched_anywhere (accountId : String)
    (events : List AccountEvent) :
    (Account.findCreated events = none →
      ∃ m, Account.fromEvents accountId events = .error (.stateError m)) ∧
    (∀ n c neg rest, events = .accountCreated n c neg :: rest →
      (∀ e ∈ events, e.eventWf) →
      ∃ s, Account.fromEvents accountId events = .ok s ∧
        s.version = events.length ∧ s.accountId = accountId) := by
  constructor
  · intro hnone
    cases events with
    | nil => exact ⟨"Cannot reconstruct account from empty event stream", rfl⟩
    | cons e es =>
        refine ⟨"AccountCreated event must be first in event stream", ?_⟩
        simp [Account.fromEvents, hnone, Bind.bind, Except.bind, pure, Except.pure,
          throw, throwThe, MonadExceptOf.throw]
  · rintro n c neg rest rfl hall
    have h3 : c.length = 3 := hall _ (List.mem_cons_self _ _)
    have hz : Money.zero c = .ok ⟨0, c⟩ := Money.make_ok 0 c h3
    have hstep := applyEvent_created
      { accountId := accountId, name := n, currency := c, allowNegative := neg,
        balance := ⟨0, c⟩, version := 0, isArchived := false } n c neg h3
    obtain ⟨s', hs', hver', hwf', hacc'⟩ :=
      foldlM_applyEvent_ok rest
        { accountId := accountId, name := n, currency := c, allowNegative := neg,
          balance := ⟨0, c⟩, version := 1, isArchived := false } ⟨h3, rfl⟩
        (fun e h => hall e (List.mem_cons_of_mem _ h))
    refine ⟨s', ?_, ?_, hacc'⟩
    · simp [Account.fromEvents, Account.findCreated, hz, Bind.bind, Except.bind,
        List.foldlM_cons, hstep, hs', pure, Except.pure]
    · rw [hver']
      simp [List.length_cons]
      omega

/-- Witness for C8: a list with no creation event fails with a state
error; a list headed by the creation event with valid amounts folds
every event. -/
theorem fromEvents_created_searched_anywhere_witness :
    (Account.findCreated [AccountEvent.incomeRecorded 5 0 none] = none ∧
     ∃ m, Account.fromEvents "acc-1" [AccountEvent.incomeRecorded 5 0 none] =
       .error (.stateError m)) ∧
    ((∀ e ∈ [AccountEvent.accountCreated "Main" "USD" false,
        AccountEvent.incomeRecorded 100 5 none], AccountEvent.eventWf e) ∧
     ∃ s, Account.fromEvents "acc-1"
         [AccountEvent.accountCreated "Main" "USD" false,
          AccountEvent.incomeRecorded 100 5 none] = .ok s ∧
       s.version = 2 ∧ s.accountId = "acc-1") :=
  ⟨⟨rfl, (fromEvents_created_searched_anywhere "acc-1"
      [AccountEvent.incomeRecorded 5 0 none]).1 rfl⟩,
   ⟨by decide, (fromEvents_created_searched_anywhere "acc-1"
      [AccountEvent.accountCreated "Main" "USD" false,
       AccountEvent.incomeRecorded 100 5 none]).2 "Main" "USD" false
      [AccountEvent.incomeRecorded 100 5 none] rfl (by decide)⟩⟩

/-- Counterexample for C8 as stated: a list whose first element is not
the creation event still succeeds as long as an AccountCreated event
appears later (the code uses events.find, not a first-element check);
and a list whose first element is AccountCreated can still fail, on a
negative financial amount. -/
theorem fromEvents_first_element_not_required :
    (Account.fromEvents "acc-1"
      [AccountEvent.incomeRecorded 5 0 none,
       AccountEvent.accountCreated "n" "USD" true] =
      .ok { accountId := "acc-1", name := "n", currency := "USD", allowNegative := true,
            balance := ⟨0, "USD"⟩, version := 2, isArchived := false }) ∧
    (Account.fromEvents "acc-1"
      [AccountEvent.accountCreated "n" "USD" false,
       AccountEvent.incomeRecorded (-5) 0 none] =
      .error (.invalidAmount "Amount cannot be negative")) :=
  ⟨rfl, rfl⟩

end Ledger

namespace Ledger

namespace EventStoreRepo

theorem appendLoop_spec (aggregateType aggregateId : String) (m : EventMetadata)
    (nowIns nowCtx : Nat) (events : List AccountEvent) :
    ∀ (db : Db) (v : Int),
      appendLoop db aggregateType aggregateId events v m nowIns nowCtx =
        ({ rows := db.rows ++ mkRows aggregateType aggregateId m nowIns events v db.nextSeq,
           nextSeq := db.nextSeq + events.length,
           readModel := projectRows db.readModel
             (mkRows aggregateType aggregateId m nowCtx events v db.nextSeq) },
         mkRows aggregateType aggregateId m nowCtx events v db.nextSeq) := by
  induction events with
  | nil =>
      intro db v
      simp [appendLoop, mkRows, projectRows]
  | cons e rest ih =>
      intro db v
      simp only [appendLoop, mkRows, ih]
      refine Prod.ext ?_ rfl
      refine (Db.mk.injEq _ _ _ _ _ _).mpr ⟨?_, ?_, ?_⟩
      · simp [rowOf, List.append_assoc]
      · simp [List.length_cons]
        omega
      · simp [projectRows, ctxOfStored, rowOf]

theorem appendWithClient_commits (db : Db) (t i : String) (es : List AccountEvent)
    (v : Int) (m : EventMetadata) (nI nC : Nat) (hne : es ≠ [])
    (hv : v = streamVersion db t i) :
    appendWithClient db t i es v m nI nC =
      .ok ({ rows := db.rows ++ mkRows t i m nI es (v + 1) db.nextSeq,
             nextSeq := db.nextSeq + es.length,
             readModel := projectRows db.readModel
               (mkRows t i m nC es (v + 1) db.nextSeq) },
           mkRows t i m nC es (v + 1) db.nextSeq) := by
  have hempty : es.isEmpty = false := by
    cases es with
    | nil => exact absurd rfl hne
    | cons a l => rfl
  simp [appendWithClient, hempty, hv, appendLoop_spec]

theorem appendWithClient_conflict (db : Db) (t i : String) (es : List AccountEvent)
    (v : Int) (m : EventMetadata) (nI nC : Nat) (hne : es ≠ [])
    (hv : v ≠ streamVersion db t i) :
    appendWithClient db t i es v m nI nC = .error ⟨v, streamVersion db t i⟩ := by
  have hempty : es.isEmpty = false := by
    cases es with
    | nil => exact absurd rfl hne
    | cons a l => rfl
  simp [appendWithClient, hempty]
  exact fun h => absurd h.symm hv

theorem mkRows_length (t i : String) (m : EventMetadata) (now : Nat) :
    ∀ (es : List AccountEvent) (v : Int) (s : Nat),
      (mkRows t i m now es v s).length = es.length := by
  intro es
  induction es with
  | nil => intro v s; rfl
  | cons e rest ih => intro v s; simp [mkRows, ih]

theorem mkRows_map_payload (t i : String) (m : EventMetadata) (now : Nat) :
    ∀ (es : List AccountEvent) (v : Int) (s : Nat),
      (mkRows t i m now es v s).map (fun r => r.payload) = es := by
  intro es
  induction es with
  | nil => intro v s; rfl
  | cons e rest ih => intro v s; simp [mkRows, rowOf, ih]

theorem mkRows_map_version (t i : String) (m : EventMetadata) (now : Nat) :
    ∀ (es : List AccountEvent) (v : Int) (s : Nat),
      (mkRows t i m now es v s).map (fun r => r.version) =
        (List.range es.length).map (fun k : Nat => v + (k : ℤ)) := by
  intro es
  induction es with
  | nil => intro v s; rfl
  | cons e rest ih =>
      intro v s
      rw [List.length_cons, List.range_succ_eq_map]
      simp only [mkRows, List.map_cons, List.map_map, rowOf, ih]
      refine List.cons_eq_cons.mpr ⟨by simp, ?_⟩
      apply List.map_congr_left
      intro k _
      simp [Function.comp, Nat.succ_eq_add_one]
      ring

theorem mkRows_map_seq (t i : String) (m : EventMetadata) (now : Nat) :
    ∀ (es : List AccountEvent) (v : Int) (s : Nat),
      (mkRows t i m now es v s).map (fun r => r.eventSeq) =
        List.range' s es.length := by
  intro es
  induction es with
  | nil => intro v s; rfl
  | cons e rest ih =>
      intro v s
      rw [List.length_cons, List.range'_succ]
      simp [mkRows, rowOf, ih]

theorem mkRows_stream_fields (t i : String) (m : EventMetadata) (now : Nat) :
    ∀ (es : List AccountEvent) (v : Int) (s : Nat),
      ∀ r ∈ mkRows t i m now es v s, r.aggregateType = t ∧ r.aggregateId = i := by
  intro es
  induction es with
  | nil => intro v s r hr; cases hr
  | cons e rest ih =>
      intro v s r hr
      cases hr with
      | head => exact ⟨rfl, rfl⟩
      | tail _ h => exact ih (v + 1) (s + 1) r h

theorem foldl_max_mkRows (t i : String) (m : EventMetadata) (now : Nat) :
    ∀ (es : List AccountEvent) (v : Int) (s : Nat) (acc : Int), es ≠ [] →
      (mkRows t i m now es v s).foldl (fun a r => max a r.version) acc =
        max acc (v + es.length - 1) := by
  intro es
  induction es with
  | nil => intro v s acc h; exact absurd rfl h
  | cons e rest ih =>
      intro v s acc _
      cases rest with
      | nil => simp [mkRows, rowOf]
      | cons e2 rest2 =>
          rw [show mkRows t i m now (e :: e2 :: rest2) v s =
              rowOf t i m now e v s :: mkRows t i m now (e2 :: rest2) (v + 1) (s + 1)
            from rfl, List.foldl_cons,
            show (rowOf t i m now e v s).version = v from rfl,
            ih (v + 1) (s + 1) (max acc v) (by simp)]
          simp only [List.length_cons]
          push_cast
          omega

end EventStoreRepo

end Ledger

namespace Ledger

namespace EventStoreRepo

theorem streamVersion_extend (db : Db) (t i : String) (es : List AccountEvent)
    (v : Int) (m : EventMetadata) (now : Nat) (nextSeq2 : Nat) (rm : ReadModel)
    (hne : es ≠ []) :
    streamVersion
        { rows := db.rows ++ mkRows t i m now es v db.nextSeq,
          nextSeq := nextSeq2, readModel := rm } t i =
      max (streamVersion db t i) (v + es.length - 1) := by
  have hfilter : (mkRows t i m now es v db.nextSeq).filter
      (fun r => r.aggregateType == t && r.aggregateId == i) =
      mkRows t i m now es v db.nextSeq := by
    apply List.filter_eq_self.mpr
    intro r hr
    obtain ⟨h1, h2⟩ := mkRows_stream_fields t i m now es v db.nextSeq r hr
    simp [h1, h2]
  unfold streamVersion
  rw [List.filter_append, hfilter, List.foldl_append]
  exact foldl_max_mkRows t i m now es v db.nextSeq _ hne

end EventStoreRepo

/-- C1: for every stream and non-empty event list, append with
expectedVersion equal to the stream's true current version succeeds,
assigns the events the consecutive versions expectedVersion+1 ..
expectedVersion+n and fresh, consecutive global sequence numbers, and
advances the stream's version by n; append with any other
expectedVersion fails with a ConcurrencyError carrying
(expectedVersion, actualVersion) and leaves the store unchanged. -/
theorem append_expected_version_gate (db : Db) (t i : String) (es : List AccountEvent)
    (v : Int) (m : EventMetadata) (nI nC : Nat) (hne : es ≠ [])
    (hseq : ∀ r ∈ db.rows, r.eventSeq < db.nextSeq) :
    (v = EventStoreRepo.streamVersion db t i →
      ∃ db' stored, EventStoreRepo.append db t i es v m nI nC = .ok (db', stored) ∧
        stored.map (fun r => r.payload) = es ∧
        stored.map (fun r => r.version) =
          (List.range es.length).map (fun k : Nat => v + 1 + (k : ℤ)) ∧
        stored.map (fun r => r.eventSeq) = List.range' db.nextSeq es.length ∧
        (∀ r' ∈ stored, ∀ r ∈ db.rows, r.eventSeq ≠ r'.eventSeq) ∧
        EventStoreRepo.streamVersion db' t i = v + es.length ∧
        db'.rows.length = db.rows.length + es.length) ∧
    (v ≠ EventStoreRepo.streamVersion db t i →
      EventStoreRepo.append db t i es v m nI nC =
        .error ⟨v, EventStoreRepo.streamVersion db t i⟩ ∧
      EventStoreRepo.execAppend db t i es v m nI nC = db) := by
  have hempty : es.isEmpty = false := by
    cases es with
    | nil => exact absurd rfl hne
    | cons a l => rfl
  have happend : EventStoreRepo.append db t i es v m nI nC =
      EventStoreRepo.appendWithClient db t i es v m nI nC := by
    simp [EventStoreRepo.append, hempty]
  have hlen : 1 ≤ es.length := by
    cases es with
    | nil => exact absurd rfl hne
    | cons a l => simp
  constructor
  · intro hv
    rw [happend, EventStoreRepo.appendWithClient_commits db t i es v m nI nC hne hv]
    refine ⟨_, _, rfl,
      EventStoreRepo.mkRows_map_payload t i m nC es (v + 1) db.nextSeq,
      EventStoreRepo.mkRows_map_version t i m nC es (v + 1) db.nextSeq,
      EventStoreRepo.mkRows_map_seq t i m nC es (v + 1) db.nextSeq, ?_, ?_, ?_⟩
    · intro r' hr' r hr
      have hmem : r'.eventSeq ∈ List.range' db.nextSeq es.length := by
        rw [← EventStoreRepo.mkRows_map_seq t i m nC es (v + 1) db.nextSeq]
        exact List.mem_map_of_mem (fun r => r.eventSeq) hr'
      have hge : db.nextSeq ≤ r'.eventSeq := (List.mem_range'_1.mp hmem).1
      have hlt : r.eventSeq < db.nextSeq := hseq r hr
      omega
    · rw [EventStoreRepo.streamVersion_extend db t i es (v + 1) m nI _ _ hne, ← hv]
      have : (es.length : ℤ) ≥ 1 := by exact_mod_cast hlen
      omega
    · simp [EventStoreRepo.mkRows_length]
  · intro hv
    have hconf := EventStoreRepo.appendWithClient_conflict db t i es v m nI nC hne hv
    refine ⟨by rw [happend, hconf], ?_⟩
    unfold EventStoreRepo.execAppend
    rw [happend, hconf]

/-- Witness for C1: on the empty store, appending one creation event
at expectedVersion −1 succeeds and advances the stream to version 0,
while expectedVersion 7 fails with ConcurrencyError (7, −1) and leaves
the store unchanged. -/
theorem append_expected_version_gate_witness :
    ([AccountEvent.accountCreated "Main" "USD" false] ≠ ([] : List AccountEvent) ∧
     (∀ r ∈ initialDb.rows, r.eventSeq < initialDb.nextSeq) ∧
     (-1 : Int) = EventStoreRepo.streamVersion initialDb "account" "acc-1" ∧
     (7 : Int) ≠ EventStoreRepo.streamVersion initialDb "account" "acc-1") ∧
    (∃ db' stored,
      EventStoreRepo.append initialDb "account" "acc-1"
        [AccountEvent.accountCreated "Main" "USD" false] (-1) sampleMeta 3 4 =
        .ok (db', stored) ∧
      stored.map (fun r => r.payload) = [AccountEvent.accountCreated "Main" "USD" false] ∧
      stored.map (fun r => r.version) =
        (List.range 1).map (fun k : Nat => (-1 : ℤ) + 1 + (k : ℤ)) ∧
      stored.map (fun r => r.eventSeq) = List.range' 1 1 ∧
      (∀ r' ∈ stored, ∀ r ∈ initialDb.rows, r.eventSeq ≠ r'.eventSeq) ∧
      EventStoreRepo.streamVersion db' "account" "acc-1" = -1 + 1 ∧
      db'.rows.length = initialDb.rows.length + 1) ∧
    (EventStoreRepo.append initialDb "account" "acc-1"
        [AccountEvent.accountCreated "Main" "USD" false] 7 sampleMeta 3 4 =
        .error ⟨7, EventStoreRepo.streamVersion initialDb "account" "acc-1"⟩ ∧
     EventStoreRepo.execAppend initialDb "account" "acc-1"
        [AccountEvent.accountCreated "Main" "USD" false] 7 sampleMeta 3 4 = initialDb) :=
  ⟨⟨by simp, by simp [initialDb], rfl, by decide⟩,
   (append_expected_version_gate initialDb "account" "acc-1"
      [AccountEvent.accountCreated "Main" "USD" false] (-1) sampleMeta 3 4
      (by simp) (by simp [initialDb])).1 rfl,
   (append_expected_version_gate initialDb "account" "acc-1"
      [AccountEvent.accountCreated "Main" "USD" false] 7 sampleMeta 3 4
      (by simp) (by simp [initialDb])).2 (by decide)⟩

/-- C10: append (and appendWithClient, hence each request inside
appendMultiple) with an empty events list returns an empty result
without performing the version check, for any expectedVersion: it
never raises a ConcurrencyError and leaves the event log and the
projections unchanged. -/
theorem append_empty_events_noop (db : Db) (t i : String) (v : Int)
    (m : EventMetadata) (nI nC : Nat) :
    EventStoreRepo.append db t i [] v m nI nC = .ok (db, []) ∧
    EventStoreRepo.appendWithClient db t i [] v m nI nC = .ok (db, []) ∧
    EventStoreRepo.execAppend db t i [] v m nI nC = db :=
  ⟨rfl, rfl, rfl⟩

end Ledger

namespace Ledger

namespace EventStoreRepo

theorem appendWithClient_cases (db : Db) (t i : String) (es : List AccountEvent)
    (v : Int) (m : EventMetadata) (nI nC : Nat) :
    (es = [] ∧ appendWithClient db t i es v m nI nC = .ok (db, [])) ∨
    (es ≠ [] ∧ v = streamVersion db t i ∧
      appendWithClient db t i es v m nI nC =
        .ok ({ rows := db.rows ++ mkRows t i m nI es (v + 1) db.nextSeq,
               nextSeq := db.nextSeq + es.length,
               readModel := projectRows db.readModel
                 (mkRows t i m nC es (v + 1) db.nextSeq) },
             mkRows t i m nC es (v + 1) db.nextSeq)) ∨
    (es ≠ [] ∧ v ≠ streamVersion db t i ∧
      appendWithClient db t i es v m nI nC = .error ⟨v, streamVersion db t i⟩) := by
  by_cases hne : es = []
  · subst hne
    exact Or.inl ⟨rfl, rfl⟩
  · by_cases hv : v = streamVersion db t i
    · exact Or.inr (Or.inl ⟨hne, hv, appendWithClient_commits db t i es v m nI nC hne hv⟩)
    · exact Or.inr (Or.inr ⟨hne, hv, appendWithClient_conflict db t i es v m nI nC hne hv⟩)

theorem committed_map (x : Except ConcurrencyError (Db × List (List StoredEvent)))
    (f : Db × List (List StoredEvent) → Db × List (List StoredEvent)) :
    committed (x.map f) = committed x := by
  cases x <;> rfl

theorem appendMultipleLoop_cons_ok (nI nC : Nat) (r : AppendRequest)
    (rest : List AppendRequest) (db db1 : Db) (stored : List StoredEvent)
    (hok : appendWithClient db r.aggregateType r.aggregateId r.events
      r.expectedVersion r.metadata nI nC = .ok (db1, stored)) :
    appendMultipleLoop db nI nC (r :: rest) =
      (appendMultipleLoop db1 nI nC rest).map (fun p => (p.1, stored :: p.2)) := by
  simp only [appendMultipleLoop, hok, Bind.bind, Except.bind]
  cases appendMultipleLoop db1 nI nC rest with
  | ok p => rfl
  | error e => rfl

theorem appendMultipleLoop_spec (nI nC : Nat) :
    ∀ (reqs : List AppendRequest) (db : Db),
    (committed (appendMultipleLoop db nI nC reqs) = true ↔ allMatch nI nC db reqs) ∧
    (∀ db' results, appendMultipleLoop db nI nC reqs = .ok (db', results) →
      results.map (fun l => l.map (fun r => r.payload)) = reqs.map (fun r => r.events) ∧
      db'.rows.map (fun r => r.payload) =
        db.rows.map (fun r => r.payload) ++ (reqs.map (fun r => r.events)).flatten) := by
  intro reqs
  induction reqs with
  | nil =>
      intro db
      refine ⟨by simp [appendMultipleLoop, committed, allMatch], ?_⟩
      intro db' results h
      simp only [appendMultipleLoop, Except.ok.injEq, Prod.mk.injEq] at h
      obtain ⟨hdb, hres⟩ := h
      subst hdb
      subst hres
      simp
  | cons r rest ih =>
      intro db
      have hallEq : allMatch nI nC db (r :: rest) =
          ((r.events ≠ [] → r.expectedVersion =
              streamVersion db r.aggregateType r.aggregateId) ∧
            allMatch nI nC (execAppendWithClient db r nI nC) rest) := rfl
      rcases appendWithClient_cases db r.aggregateType r.aggregateId r.events
          r.expectedVersion r.metadata nI nC with
        ⟨hemp, hok⟩ | ⟨hne, hv, hok⟩ | ⟨hne, hv, herr⟩
      case inl.intro =>
        have hexec : execAppendWithClient db r nI nC = db := by
          simp [execAppendWithClient, hok]
        have hcons := appendMultipleLoop_cons_ok nI nC r rest db db [] hok
        constructor
        · rw [hcons, committed_map, hallEq, hexec, (ih db).1]
          exact ⟨fun h => ⟨fun h2 => absurd hemp h2, h⟩, fun h => h.2⟩
        · intro db' results h
          rw [hcons] at h
          cases h2 : appendMultipleLoop db nI nC rest with
          | error e2 => rw [h2] at h; cases h
          | ok p =>
              rw [h2] at h
              simp only [Except.map, Except.ok.injEq, Prod.mk.injEq] at h
              obtain ⟨hdb', hres⟩ := h
              obtain ⟨hmap, hrows⟩ := (ih db).2 p.1 p.2 h2
              subst hdb'
              subst hres
              exact ⟨by simp [hmap, hemp], by simp [hrows, hemp]⟩
      case inr.inl.intro.intro =>
        have hexec : execAppendWithClient db r nI nC =
            { rows := db.rows ++ mkRows r.aggregateType r.aggregateId r.metadata nI
                r.events (r.expectedVersion + 1) db.nextSeq,
              nextSeq := db.nextSeq + r.events.length,
              readModel := projectRows db.readModel
                (mkRows r.aggregateType r.aggregateId r.metadata nC r.events
                  (r.expectedVersion + 1) db.nextSeq) } := by
          simp [execAppendWithClient, hok]
        have hcons := appendMultipleLoop_cons_ok nI nC r rest db _ _ hok
        constructor
        · rw [hcons, committed_map, hallEq, ← hexec,
            (ih (execAppendWithClient db r nI nC)).1]
          exact ⟨fun h => ⟨fun _ => hv, h⟩, fun h => h.2⟩
        · intro db' results h
          rw [hcons] at h
          cases h2 : appendMultipleLoop (execAppendWithClient db r nI nC) nI nC rest with
          | error e2 => rw [hexec] at h2; rw [h2] at h; cases h
          | ok p =>
              rw [hexec] at h2
              rw [h2] at h
              simp only [Except.map, Except.ok.injEq, Prod.mk.injEq] at h
              obtain ⟨hdb', hres⟩ := h
              rw [← hexec] at h2
              obtain ⟨hmap, hrows⟩ := (ih (execAppendWithClient db r nI nC)).2 p.1 p.2 h2
              rw [hexec] at hrows
              subst hdb'
              subst hres
              constructor
              · simp [hmap, mkRows_map_payload]
              · simp only [List.map_cons, List.flatten_cons, hrows]
                simp [mkRows_map_payload]
      case inr.inr.intro.intro =>
        constructor
        · rw [hallEq]
          simp [appendMultipleLoop, herr, Bind.bind, Except.bind, committed]
          intro hcond
          exact absurd (hcond hne) hv
        · intro db' results h
          simp only [appendMultipleLoop, herr, Bind.bind, Except.bind] at h
          cases h

end EventStoreRepo

end Ledger

namespace Ledger

/-- C3 (amended): appendMultiple is all-or-nothing.  The call commits
exactly when every request with a non-empty events list names the
current version its stream has at the point that request is processed
inside the transaction (allMatch); on any failure the transaction
rolls back and the visible store is exactly the one before the call;
on success every request's events are committed, per request and into
the event table. -/
theorem appendMultiple_all_or_nothing (db : Db) (reqs : List EventStoreRepo.AppendRequest)
    (nI nC : Nat) :
    (EventStoreRepo.committed (EventStoreRepo.appendMultiple db reqs nI nC) = true ↔
      EventStoreRepo.allMatch nI nC db reqs) ∧
    (EventStoreRepo.committed (EventStoreRepo.appendMultiple db reqs nI nC) = false →
      EventStoreRepo.execAppendMultiple db reqs nI nC = db) ∧
    (∀ db' results, EventStoreRepo.appendMultiple db reqs nI nC = .ok (db', results) →
      results.map (fun l => l.map (fun r => r.payload)) = reqs.map (fun r => r.events) ∧
      db'.rows.map (fun r => r.payload) =
        db.rows.map (fun r => r.payload) ++ (reqs.map (fun r => r.events)).flatten) := by
  have hspec := EventStoreRepo.appendMultipleLoop_spec nI nC reqs db
  by_cases hreqs : reqs.isEmpty
  · have : reqs = [] := List.isEmpty_iff.mp hreqs
    subst this
    refine ⟨by simp [EventStoreRepo.appendMultiple, EventStoreRepo.committed,
        EventStoreRepo.allMatch], ?_, ?_⟩
    · intro h
      simp [EventStoreRepo.appendMultiple, EventStoreRepo.committed] at h
    · intro db' results h
      simp only [EventStoreRepo.appendMultiple, List.isEmpty_nil, if_true,
        Except.ok.injEq, Prod.mk.injEq] at h
      obtain ⟨hdb, hres⟩ := h
      subst hdb
      subst hres
      simp
  · have hmul : EventStoreRepo.appendMultiple db reqs nI nC =
        EventStoreRepo.appendMultipleLoop db nI nC reqs := by
      simp [EventStoreRepo.appendMultiple, hreqs]
    refine ⟨by rw [hmul]; exact hspec.1, ?_, ?_⟩
    · intro h
      unfold EventStoreRepo.execAppendMultiple
      rw [hmul] at h ⊢
      cases hx : EventStoreRepo.appendMultipleLoop db nI nC reqs with
      | ok p =>
          rw [hx] at h
          simp [EventStoreRepo.committed] at h
      | error e => rfl
    · intro db' results h
      rw [hmul] at h
      exact hspec.2 db' results h

/-- Witness for C3 (amended): a two-stream transfer-style call where
both requests match commits both streams' events; a call whose second
request has non-empty events and a stale expectedVersion does not
commit and leaves the store untouched. -/
theorem appendMultiple_all_or_nothing_witness :
    (EventStoreRepo.allMatch 0 0 initialDb
      [⟨"account", "A", [AccountEvent.accountCreated "a" "USD" false], -1, sampleMeta⟩,
       ⟨"account", "B", [AccountEvent.accountCreated "b" "USD" false], -1, sampleMeta⟩] ∧
     EventStoreRepo.committed (EventStoreRepo.appendMultiple initialDb
      [⟨"account", "A", [AccountEvent.accountCreated "a" "USD" false], -1, sampleMeta⟩,
       ⟨"account", "B", [AccountEvent.accountCreated "b" "USD" false], -1, sampleMeta⟩]
      0 0) = true) ∧
    (EventStoreRepo.committed (EventStoreRepo.appendMultiple initialDb
      [⟨"account", "A", [AccountEvent.accountCreated "a" "USD" false], -1, sampleMeta⟩,
       ⟨"account", "B", [AccountEvent.incomeRecorded 100 5 none], 5, sampleMeta⟩]
      0 0) = false ∧
     EventStoreRepo.execAppendMultiple initialDb
      [⟨"account", "A", [AccountEvent.accountCreated "a" "USD" false], -1, sampleMeta⟩,
       ⟨"account", "B", [AccountEvent.incomeRecorded 100 5 none], 5, sampleMeta⟩]
      0 0 = initialDb) :=
  ⟨⟨by decide,
    (appendMultiple_all_or_nothing initialDb
      [⟨"account", "A", [AccountEvent.accountCreated "a" "USD" false], -1, sampleMeta⟩,
       ⟨"account", "B", [AccountEvent.accountCreated "b" "USD" false], -1, sampleMeta⟩]
      0 0).1.mpr (by decide)⟩,
   by decide,
   (appendMultiple_all_or_nothing initialDb
      [⟨"account", "A", [AccountEvent.accountCreated "a" "USD" false], -1, sampleMeta⟩,
       ⟨"account", "B", [AccountEvent.incomeRecorded 100 5 none], 5, sampleMeta⟩]
      0 0).2.1 (by decide)⟩

/-- Counterexample for C3 as stated: a request list in which one
request's expectedVersion (999) differs from its stream's true current
version (−1) can still commit, because that request's events list is
empty and the version check is skipped — and the other request's event
becomes visible. -/
theorem appendMultiple_empty_request_skips_check :
    EventStoreRepo.committed (EventStoreRepo.appendMultiple initialDb
      [⟨"account", "A", [AccountEvent.incomeRecorded 100 5 none], -1, sampleMeta⟩,
       ⟨"account", "B", [], 999, sampleMeta⟩] 0 0) = true ∧
    (999 : Int) ≠ EventStoreRepo.streamVersion initialDb "account" "B" ∧
    EventStoreRepo.streamVersion
      (EventStoreRepo.execAppendMultiple initialDb
        [⟨"account", "A", [AccountEvent.incomeRecorded 100 5 none], -1, sampleMeta⟩,
         ⟨"account", "B", [], 999, sampleMeta⟩] 0 0) "account" "A" = 0 := by
  refine ⟨by decide, by decide, by decide⟩

end Ledger

namespace Ledger

theorem find?_append_none {p : DedupRow → Bool} (table : List DedupRow) (row : DedupRow)
    (hnone : table.find? p = none) (hrow : p row = true) :
    (table ++ [row]).find? p = some row := by
  induction table with
  | nil => simp [List.find?, hrow]
  | cons x xs ih =>
      rw [List.find?_cons] at hnone
      cases hx : p x with
      | true => rw [hx] at hnone; cases hnone
      | false =>
          rw [hx] at hnone
          simp only [List.cons_append, List.find?_cons, hx]
          exact ih hnone

/-- C7: beginCommand is a single atomic conditional write.  If no row
for (userId, idempotencyKey) exists, it inserts one carrying the fresh
correlationId and returns it with isDuplicate = false; if a row
exists, it returns that row's stored correlationId with isDuplicate =
true without modifying the table; in both cases exactly one row for
the key exists afterwards and getCorrelationId on the resulting table
returns exactly the correlationId the call returned, so every call
with the same key observes the same correlationId.  The hypotheses
model the table's unique constraint on (user_id, idempotency_key) and
the freshness of the randomUUID draw. -/
theorem beginCommand_atomic_upsert (table : List DedupRow) (u k fresh : String)
    (huniq : (table.filter (dedupKeyMatch u k)).length ≤ 1)
    (hfresh : ∀ r ∈ table, r.correlationId ≠ fresh) :
    (CommandDedupRepo.getCorrelationId table u k = none →
      CommandDedupRepo.beginCommand table u k fresh =
        (table ++ [⟨u, k, fresh⟩], ⟨false, fresh⟩)) ∧
    (∀ cid, CommandDedupRepo.getCorrelationId table u k = some cid →
      CommandDedupRepo.beginCommand table u k fresh = (table, ⟨true, cid⟩)) ∧
    ((CommandDedupRepo.beginCommand table u k fresh).1.filter
        (dedupKeyMatch u k)).length = 1 ∧
    CommandDedupRepo.getCorrelationId
        (CommandDedupRepo.beginCommand table u k fresh).1 u k =
      some (CommandDedupRepo.beginCommand table u k fresh).2.correlationId := by
  have hpeq : (fun r : DedupRow => r.userId == u && r.idempotencyKey == k) =
      dedupKeyMatch u k := by
    funext r
    rfl
  cases hfind : table.find? (fun r => r.userId == u && r.idempotencyKey == k) with
  | none =>
      have hbc : CommandDedupRepo.beginCommand table u k fresh =
          (table ++ [⟨u, k, fresh⟩], ⟨false, fresh⟩) := by
        simp [CommandDedupRepo.beginCommand, hfind]
      have hnomatch : ∀ r ∈ table, ¬(dedupKeyMatch u k r = true) := by
        intro r hr
        rw [← hpeq]
        exact List.find?_eq_none.mp hfind r hr
      have hfilter : table.filter (dedupKeyMatch u k) = [] := by
        rw [List.filter_eq_nil_iff]
        exact hnomatch
      have hrowmatch : dedupKeyMatch u k ⟨u, k, fresh⟩ = true := by
        simp [dedupKeyMatch]
      refine ⟨fun _ => hbc, ?_, ?_, ?_⟩
      · intro cid hcid
        rw [CommandDedupRepo.getCorrelationId, hfind] at hcid
        cases hcid
      · rw [hbc]
        simp [List.filter_append, hfilter, hrowmatch]
      · rw [hbc, CommandDedupRepo.getCorrelationId, hpeq,
          find?_append_none table ⟨u, k, fresh⟩ (by rw [← hpeq]; exact hfind) hrowmatch]
        rfl
  | some r =>
      have hmem : r ∈ table := List.mem_of_find?_eq_some hfind
      have hpr : dedupKeyMatch u k r = true := by
        have h0 := List.find?_some hfind
        simpa [dedupKeyMatch] using h0
      have hbc : CommandDedupRepo.beginCommand table u k fresh =
          (table, ⟨true, r.correlationId⟩) := by
        simp [CommandDedupRepo.beginCommand, hfind, hfresh r hmem]
      refine ⟨?_, ?_, ?_, ?_⟩
      · intro hnone
        rw [CommandDedupRepo.getCorrelationId, hfind] at hnone
        cases hnone
      · intro cid hcid
        simp only [CommandDedupRepo.getCorrelationId, hfind, Option.map,
          Option.some.injEq] at hcid
        rw [hbc, hcid]
      · rw [hbc]
        show (table.filter (dedupKeyMatch u k)).length = 1
        have hmemf : r ∈ table.filter (dedupKeyMatch u k) :=
          List.mem_filter.mpr ⟨hmem, hpr⟩
        have hpos : 0 < (table.filter (dedupKeyMatch u k)).length :=
          List.length_pos.mpr (List.ne_nil_of_mem hmemf)
        omega
      · rw [hbc, CommandDedupRepo.getCorrelationId, hfind]
        rfl

/-- Witness for C7: on a table holding ("user-1", "key-1") → "corr-0",
beginCommand with fresh id "corr-9" returns the stored "corr-0" with
isDuplicate = true and leaves the table unchanged; on the empty table
it inserts and returns the fresh id with isDuplicate = false. -/
theorem beginCommand_atomic_upsert_witness :
    (([⟨"user-1", "key-1", "corr-0"⟩] : List DedupRow).filter
        (dedupKeyMatch "user-1" "key-1")).length ≤ 1 ∧
    (∀ r ∈ ([⟨"user-1", "key-1", "corr-0"⟩] : List DedupRow),
      r.correlationId ≠ "corr-9") ∧
    CommandDedupRepo.beginCommand [⟨"user-1", "key-1", "corr-0"⟩] "user-1" "key-1"
        "corr-9" = ([⟨"user-1", "key-1", "corr-0"⟩], ⟨true, "corr-0"⟩) ∧
    CommandDedupRepo.beginCommand [] "user-1" "key-1" "corr-9" =
      ([⟨"user-1", "key-1", "corr-9"⟩], ⟨false, "corr-9"⟩) :=
  ⟨by decide, by decide,
   (beginCommand_atomic_upsert [⟨"user-1", "key-1", "corr-0"⟩] "user-1" "key-1" "corr-9"
      (by decide) (by decide)).2.1 "corr-0" rfl,
   (beginCommand_atomic_upsert [] "user-1" "key-1" "corr-9"
      (by decide) (by decide)).1 rfl⟩

end Ledger

namespace Ledger

theorem core_any (as : List ReadAccount) (x : String) :
    (as.map ReadAccount.core).any (fun a => a.accountId == x) =
      as.any (fun a => a.accountId == x) := by
  rw [List.any_map]
  rfl

theorem upsertAccount_core (as : List ReadAccount) (row : ReadAccount) :
    (Projector.upsertAccount as row).map ReadAccount.core =
      Projector.upsertAccount (as.map ReadAccount.core) (ReadAccount.core row) := by
  unfold Projector.upsertAccount
  rw [show (ReadAccount.core row).accountId = row.accountId from rfl, core_any]
  cases h : as.any (fun a => a.accountId == row.accountId) with
  | false => simp
  | true =>
      simp only [if_true]
      rw [List.map_map, List.map_map]
      apply List.map_congr_left
      intro a _
      by_cases hid : a.accountId == row.accountId
      · simp [Function.comp, hid, ReadAccount.core]
      · simp [Function.comp, hid, ReadAccount.core]

theorem adjustBalance_core (as : List ReadAccount) (x : String) (delta : ℚ)
    (seq t : Nat) :
    (Projector.adjustBalance as x delta seq t).map ReadAccount.core =
      Projector.adjustBalance (as.map ReadAccount.core) x delta seq 0 := by
  unfold Projector.adjustBalance
  rw [List.map_map, List.map_map]
  apply List.map_congr_left
  intro a _
  by_cases hid : a.accountId == x
  · simp [Function.comp, hid, ReadAccount.core]
  · simp [Function.comp, hid, ReadAccount.core]

theorem touchAccount_core (as : List ReadAccount) (x : String) (seq t : Nat) :
    (Projector.touchAccount as x seq t).map ReadAccount.core =
      Projector.touchAccount (as.map ReadAccount.core) x seq 0 := by
  unfold Projector.touchAccount
  rw [List.map_map, List.map_map]
  apply List.map_congr_left
  intro a _
  by_cases hid : a.accountId == x
  · simp [Function.comp, hid, ReadAccount.core]
  · simp [Function.comp, hid, ReadAccount.core]

theorem scrub_project (rm : ReadModel) (e : AccountEvent) (ctx : ProjectionContext) :
    scrub (Projector.project rm e ctx) =
      Projector.project (scrub rm) e
        ⟨ctx.eventSeq, ctx.eventId, ctx.aggregateId, ctx.userId, 0⟩ := by
  cases e with
  | accountCreated n c neg =>
      simp only [Projector.project, scrub]
      rw [upsertAccount_core]
      rfl
  | incomeRecorded a t d =>
      simp only [Projector.project, scrub]
      rw [adjustBalance_core]
  | expenseRecorded a t d =>
      simp only [Projector.project, scrub]
      rw [adjustBalance_core]
  | transferSent tid aid a t d =>
      simp only [Projector.project, scrub]
      rw [adjustBalance_core]
  | transferReceived tid aid a t d =>
      simp only [Projector.project, scrub]
      rw [adjustBalance_core]
  | accountArchived =>
      simp only [Projector.project, scrub]
      rw [touchAccount_core]

end Ledger

namespace Ledger

theorem scrub_foldl_ctxOfStored (rows : List StoredEvent) :
    ∀ rm : ReadModel,
      scrub (projectRows rm rows) =
        rows.foldl (fun rm row => Projector.project rm row.payload (coreCtx row))
          (scrub rm) := by
  induction rows with
  | nil => intro rm; rfl
  | cons row rest ih =>
      intro rm
      rw [show projectRows rm (row :: rest) =
          projectRows (Projector.project rm row.payload (ctxOfStored row)) rest from rfl,
        ih, List.foldl_cons, scrub_project]
      rfl

theorem scrub_foldl_ctxOfRow (rows : List StoredEvent) :
    ∀ rm : ReadModel,
      scrub (rows.foldl (fun rm row => Projector.project rm row.payload (ctxOfRow row)) rm) =
        rows.foldl (fun rm row => Projector.project rm row.payload (coreCtx row))
          (scrub rm) := by
  induction rows with
  | nil => intro rm; rfl
  | cons row rest ih =>
      intro rm
      rw [List.foldl_cons, ih, List.foldl_cons, scrub_project]
      rfl

theorem coreCtx_rowOf_now (t i : String) (m : EventMetadata) (n1 n2 : Nat)
    (e : AccountEvent) (v : Int) (s : Nat) :
    coreCtx (EventStoreRepo.rowOf t i m n1 e v s) =
      coreCtx (EventStoreRepo.rowOf t i m n2 e v s) := rfl

theorem foldl_coreCtx_mkRows_now (t i : String) (m : EventMetadata) (n1 n2 : Nat) :
    ∀ (es : List AccountEvent) (v : Int) (s : Nat) (rm : ReadModel),
      (EventStoreRepo.mkRows t i m n1 es v s).foldl
        (fun rm row => Projector.project rm row.payload (coreCtx row)) rm =
      (EventStoreRepo.mkRows t i m n2 es v s).foldl
        (fun rm row => Projector.project rm row.payload (coreCtx row)) rm := by
  intro es
  induction es with
  | nil => intro v s rm; rfl
  | cons e rest ih =>
      intro v s rm
      rw [show EventStoreRepo.mkRows t i m n1 (e :: rest) v s =
          EventStoreRepo.rowOf t i m n1 e v s ::
            EventStoreRepo.mkRows t i m n1 rest (v + 1) (s + 1) from rfl,
        show EventStoreRepo.mkRows t i m n2 (e :: rest) v s =
          EventStoreRepo.rowOf t i m n2 e v s ::
            EventStoreRepo.mkRows t i m n2 rest (v + 1) (s + 1) from rfl,
        List.foldl_cons, List.foldl_cons, coreCtx_rowOf_now t i m n1 n2, ih]
      rfl

theorem mkRows_seq_bounds (t i : String) (m : EventMetadata) (now : Nat) :
    ∀ (es : List AccountEvent) (v : Int) (s : Nat),
      ∀ r ∈ EventStoreRepo.mkRows t i m now es v s,
        s ≤ r.eventSeq ∧ r.eventSeq < s + es.length := by
  intro es
  induction es with
  | nil => intro v s r hr; cases hr
  | cons e rest ih =>
      intro v s r hr
      cases hr with
      | head => simp [EventStoreRepo.rowOf]
      | tail _ h =>
          obtain ⟨h1, h2⟩ := ih (v + 1) (s + 1) r h
          constructor
          · omega
          · simp only [List.length_cons]
            omega

theorem mkRows_pairwise (t i : String) (m : EventMetadata) (now : Nat) :
    ∀ (es : List AccountEvent) (v : Int) (s : Nat),
      (EventStoreRepo.mkRows t i m now es v s).Pairwise
        (fun a b => a.eventSeq < b.eventSeq) := by
  intro es
  induction es with
  | nil => intro v s; exact List.Pairwise.nil
  | cons e rest ih =>
      intro v s
      refine List.Pairwise.cons ?_ (ih (v + 1) (s + 1))
      intro r hr
      have := (mkRows_seq_bounds t i m now rest (v + 1) (s + 1) r hr).1
      simp only [EventStoreRepo.rowOf]
      omega

theorem insertBySeq_sorted_head (r : StoredEvent) (xs : List StoredEvent)
    (h : ∀ y ∈ xs, r.eventSeq < y.eventSeq) :
    insertBySeq r xs = r :: xs := by
  cases xs with
  | nil => rfl
  | cons y ys =>
      have : r.eventSeq ≤ y.eventSeq := (h y (List.mem_cons_self y ys)).le
      simp [insertBySeq, this]

theorem sortBySeq_sorted_id (rows : List StoredEvent)
    (h : rows.Pairwise (fun a b => a.eventSeq < b.eventSeq)) :
    sortBySeq rows = rows := by
  induction rows with
  | nil => rfl
  | cons x xs ih =>
      rw [sortBySeq, ih (List.Pairwise.sublist (List.sublist_cons_self x xs) h)]
      exact insertBySeq_sorted_head x xs (fun y hy => List.rel_of_pairwise_cons h hy)

end Ledger

namespace Ledger

theorem DbInv_appendWithClient (db : Db) (t i : String) (es : List AccountEvent)
    (v : Int) (m : EventMetadata) (nI nC : Nat) (hinv : DbInv db)
    (db1 : Db) (stored : List StoredEvent)
    (hok : EventStoreRepo.appendWithClient db t i es v m nI nC = .ok (db1, stored)) :
    DbInv db1 := by
  rcases EventStoreRepo.appendWithClient_cases db t i es v m nI nC with
    ⟨hemp, hok2⟩ | ⟨hne, hv, hok2⟩ | ⟨hne, hv, herr⟩
  · rw [hok2] at hok
    simp only [Except.ok.injEq, Prod.mk.injEq] at hok
    rw [← hok.1]
    exact hinv
  · rw [hok2] at hok
    simp only [Except.ok.injEq, Prod.mk.injEq] at hok
    rw [← hok.1]
    obtain ⟨hseq, hpair, hsc⟩ := hinv
    refine ⟨?_, ?_, ?_⟩
    · intro r hr
      simp only at hr
      rcases List.mem_append.mp hr with h | h
      · have := hseq r h
        have hlen := EventStoreRepo.mkRows_length t i m nI es (v + 1) db.nextSeq
        simp only
        omega
      · have := (mkRows_seq_bounds t i m nI es (v + 1) db.nextSeq r h).2
        have hlen := EventStoreRepo.mkRows_length t i m nI es (v + 1) db.nextSeq
        simp only
        omega
    · simp only
      apply List.pairwise_append.mpr
      refine ⟨hpair, mkRows_pairwise t i m nI es (v + 1) db.nextSeq, ?_⟩
      intro a ha b hb
      have h1 := hseq a ha
      have h2 := (mkRows_seq_bounds t i m nI es (v + 1) db.nextSeq b hb).1
      omega
    · show scrub (projectRows db.readModel
          (EventStoreRepo.mkRows t i m nC es (v + 1) db.nextSeq)) =
        (db.rows ++ EventStoreRepo.mkRows t i m nI es (v + 1) db.nextSeq).foldl
          (fun rm row => Projector.project rm row.payload (coreCtx row)) emptyReadModel
      rw [scrub_foldl_ctxOfStored, hsc, List.foldl_append,
        foldl_coreCtx_mkRows_now t i m nC nI es (v + 1) db.nextSeq]
  · rw [herr] at hok
    cases hok

theorem DbInv_appendMultipleLoop (nI nC : Nat) :
    ∀ (reqs : List EventStoreRepo.AppendRequest) (db : Db), DbInv db →
    ∀ db' results, EventStoreRepo.appendMultipleLoop db nI nC reqs = .ok (db', results) →
    DbInv db' := by
  intro reqs
  induction reqs with
  | nil =>
      intro db hinv db' results h
      simp only [EventStoreRepo.appendMultipleLoop, Except.ok.injEq, Prod.mk.injEq] at h
      rw [← h.1]
      exact hinv
  | cons r rest ih =>
      intro db hinv db' results h
      cases hw : EventStoreRepo.appendWithClient db r.aggregateType r.aggregateId
          r.events r.expectedVersion r.metadata nI nC with
      | error e =>
          rw [show EventStoreRepo.appendMultipleLoop db nI nC (r :: rest) =
              .error e from by
            simp [EventStoreRepo.appendMultipleLoop, hw, Bind.bind, Except.bind]] at h
          cases h
      | ok p =>
          have hinv1 := DbInv_appendWithClient db r.aggregateType r.aggregateId
            r.events r.expectedVersion r.metadata nI nC hinv p.1 p.2 (by rw [hw])
          rw [EventStoreRepo.appendMultipleLoop_cons_ok nI nC r rest db p.1 p.2
            (by rw [hw])] at h
          cases h2 : EventStoreRepo.appendMultipleLoop p.1 nI nC rest with
          | error e2 => rw [h2] at h; cases h
          | ok q =>
              rw [h2] at h
              simp only [Except.map, Except.ok.injEq, Prod.mk.injEq] at h
              rw [← h.1]
              exact ih p.1 hinv1 q.1 q.2 h2

theorem DbInv_runOp (db : Db) (op : LedgerOp) (hinv : DbInv db) : DbInv (runOp db op) := by
  cases op with
  | doAppend t i es v m nI nC =>
      show DbInv (EventStoreRepo.execAppend db t i es v m nI nC)
      unfold EventStoreRepo.execAppend
      cases h : EventStoreRepo.append db t i es v m nI nC with
      | error e => exact hinv
      | ok p =>
          by_cases hemp : es.isEmpty
          · have heq : EventStoreRepo.append db t i es v m nI nC = .ok (db, []) := by
              simp [EventStoreRepo.append, hemp]
            rw [heq] at h
            simp only [Except.ok.injEq] at h
            rw [← h]
            exact hinv
          · have heq : EventStoreRepo.append db t i es v m nI nC =
                EventStoreRepo.appendWithClient db t i es v m nI nC := by
              simp [EventStoreRepo.append, hemp]
            rw [heq] at h
            exact DbInv_appendWithClient db t i es v m nI nC hinv p.1 p.2
              (by rw [h])
  | doAppendMultiple reqs nI nC =>
      show DbInv (EventStoreRepo.execAppendMultiple db reqs nI nC)
      unfold EventStoreRepo.execAppendMultiple
      cases h : EventStoreRepo.appendMultiple db reqs nI nC with
      | error e => exact hinv
      | ok p =>
          by_cases hemp : reqs.isEmpty
          · have heq : EventStoreRepo.appendMultiple db reqs nI nC = .ok (db, []) := by
              simp [EventStoreRepo.appendMultiple, hemp]
            rw [heq] at h
            simp only [Except.ok.injEq] at h
            rw [← h]
            exact hinv
          · have heq : EventStoreRepo.appendMultiple db reqs nI nC =
                EventStoreRepo.appendMultipleLoop db nI nC reqs := by
              simp [EventStoreRepo.appendMultiple, hemp]
            rw [heq] at h
            exact DbInv_appendMultipleLoop nI nC reqs db hinv p.1 p.2 (by rw [h])

theorem DbInv_initialDb : DbInv initialDb := by
  refine ⟨?_, List.Pairwise.nil, rfl⟩
  intro r hr
  cases hr

theorem DbInv_runOps (ops : List LedgerOp) : DbInv (runOps initialDb ops) := by
  suffices h : ∀ db, DbInv db → DbInv (runOps db ops) from h initialDb DbInv_initialDb
  induction ops with
  | nil => intro db hinv; exact hinv
  | cons op rest ih =>
      intro db hinv
      exact ih (runOp db op) (DbInv_runOp db op hinv)

/-- C2: for every sequence of write operations starting from the empty
store, truncating the projection tables and replaying every committed
event through the Projector in ascending global-sequence order
(rebuildProjections) reproduces the incrementally maintained read
model: the movement rows are identical, and the account rows are
identical up to the updated_at clock column — in particular every
account's balance is identical. -/
theorem projections_replay_deterministic (ops : List LedgerOp) :
    (rebuildProjections (runOps initialDb ops).rows).movements =
      (runOps initialDb ops).readModel.movements ∧
    (rebuildProjections (runOps initialDb ops).rows).accounts.map ReadAccount.core =
      (runOps initialDb ops).readModel.accounts.map ReadAccount.core ∧
    (rebuildProjections (runOps initialDb ops).rows).accounts.map
        (fun a => (a.accountId, a.balanceCents)) =
      (runOps initialDb ops).readModel.accounts.map
        (fun a => (a.accountId, a.balanceCents)) := by
  obtain ⟨hseq, hpair, hsc⟩ := DbInv_runOps ops
  have hsort := sortBySeq_sorted_id _ hpair
  have hreb : scrub (rebuildProjections (runOps initialDb ops).rows) =
      scrub (runOps initialDb ops).readModel := by
    unfold rebuildProjections
    rw [hsort, scrub_foldl_ctxOfRow]
    exact hsc.symm
  have hmov : (rebuildProjections (runOps initialDb ops).rows).movements =
      (runOps initialDb ops).readModel.movements := by
    have h0 := congrArg ReadModel.movements hreb
    simpa [scrub] using h0
  have hacc : (rebuildProjections (runOps initialDb ops).rows).accounts.map
        ReadAccount.core =
      (runOps initialDb ops).readModel.accounts.map ReadAccount.core := by
    have h0 := congrArg ReadModel.accounts hreb
    simpa [scrub] using h0
  refine ⟨hmov, hacc, ?_⟩
  have h3 := congrArg
    (List.map (fun c : ReadAccount => (c.accountId, c.balanceCents))) hacc
  rw [List.map_map, List.map_map] at h3
  exact h3

end Ledger
